import Mathlib

/-!
Verification of the lox front-end (lexer, recursive-descent parser, single-pass
bytecode compiler) against its natural-language specification.

The development shallowly embeds the Rust sources:

* `src/src/tokenizer.rs` — the lexer (`tokenize`, `match_token`, `number`,
  `identifier`, `keyword`, `either`, `consume_while`).  Rust `f64` is modelled
  as exact rationals (`Rat`): the lexer only ever parses decimal literals and
  performs no floating-point arithmetic, so the decimal value is the faithful
  abstraction.  Rust `panic!` is modelled as the distinguished failure
  `LexFailure.panicked` of an `Except`, kept separate from ordinary error
  values so that aborting and returning an error remain distinguishable.
* `src/lox-compiler/src/stmt_parser.rs` — the statement parser.  The Pratt
  expression parser (`expr_parser.rs`) and the span-annotating token stream
  helpers (`common.rs`, `token.rs`, `position.rs`) are not part of the given
  sources; those parts are modelled from the specification (sections 3,
  4.2, 4.3) and are marked `Modelled from the spec:` below.
* `src/lox-compiler/src/bettercompiler/statements.rs` and
  `src/src/bettercompiler/mod.rs` — the bytecode compiler.  The `Compiler`
  state machinery (`compiler.rs`, `locals.rs`) is not part of the given
  sources and is modelled from the specification (section 4.4); the
  per-statement emission functions follow `statements.rs` line by line.
  Rust's `&mut Compiler`/`Result` style is modelled by the state-and-error
  monad `CompM`; a Rust `panic!`/`unimplemented!` is the distinguished
  failure `Failure.panicked`, which (unlike `Failure.err`) is never caught
  by the error-collecting `compile_ast`.

Recursive functions of the sources that are not structurally recursive are
given an explicit fuel parameter (first argument); fuel is decremented on
every call, so each definition is structurally recursive on fuel.  Running
out of fuel is modelled as a `panicked` outcome that no compile path
catches; public entry points supply fuel that is generous for their input.
All statements about individual source functions quantify over the fuel.
-/

namespace Lox

/-! ## Token model

Modelled from the spec: the token set of section 3 (`token.rs` is not under
the given sources; the constructors and payloads are exactly those used by
`tokenizer.rs` and `stmt_parser.rs`). -/

inductive Token where
  | LeftParen | RightParen | LeftBrace | RightBrace
  | Comma | Dot | Minus | Plus | Semicolon | Star | Slash
  | Equal | EqualEqual | Bang | BangEqual
  | Less | LessEqual | Greater | GreaterEqual
  | And | Class | Else | False | For | Fun | If | Nil | Or
  | Print | Return | Super | This | True | Var | While
  | Number (value : Rat)
  | String (value : String)
  | Identifier (name : String)
  deriving DecidableEq, Repr

/-- Rust panics of the lexer (`panic!("Unterminated string")` and
`panic!("invalid char")` in `tokenizer.rs`): the process aborts, which is
modelled as a failure value distinct from any ordinary error return. -/
inductive LexFailure where
  | panicked (msg : String)
  deriving DecidableEq, Repr

/-! ## Lexer (`src/src/tokenizer.rs`)

The `Scanner` is a peekable character iterator; it is modelled as the list of
characters not yet consumed.  `Scanner::consume_while` corresponds to
`List.takeWhile`/`List.dropWhile`. -/

/-- Scanner.consume_while: the consumed characters and the remaining stream. -/
def consume_while (p : Char → Bool) (cs : List Char) : List Char × List Char :=
  (cs.takeWhile p, cs.dropWhile p)

/-- Numeric value of a digit string (the model of `String::parse::<f64>` on the
integral part; the lexer only feeds it ASCII digits). -/
def digitsToNat (ds : List Char) : Nat :=
  ds.foldl (fun acc d => acc * 10 + (d.toNat - '0'.toNat)) 0

/-- Lexer::either: consume the next character if it matches, choosing between
the two-character and the one-character token. -/
def either (toMatch : Char) (matched unmatched : Token) (cs : List Char) :
    Token × List Char :=
  match cs with
  | c :: rest => if c = toMatch then (matched, rest) else (unmatched, cs)
  | [] => (unmatched, cs)

/-- Lexer::keyword: the fixed keyword table. -/
def keyword (identifier : String) : Option Token :=
  match identifier with
  | "and" => some .And
  | "class" => some .Class
  | "else" => some .Else
  | "false" => some .False
  | "for" => some .For
  | "fun" => some .Fun
  | "if" => some .If
  | "nil" => some .Nil
  | "or" => some .Or
  | "print" => some .Print
  | "return" => some .Return
  | "super" => some .Super
  | "this" => some .This
  | "true" => some .True
  | "var" => some .Var
  | "while" => some .While
  | _ => none

/-- Lexer::identifier: accumulate `[A-Za-z0-9_]*` after the first character,
then look the result up in the keyword table. -/
def identifier (x : Char) (cs : List Char) : Token × List Char :=
  let (rest, cs') := consume_while (fun a => a.isAlphanum || a = '_') cs
  let ident := String.mk (x :: rest)
  (match keyword ident with
   | none => .Identifier ident
   | some token => token, cs')

/-- Lexer::number: one or more digits, then optionally `.` followed by one or
more digits.  The dot is consumed only when `consume_if_next` sees a digit
after it (two-character lookahead); otherwise it is left in the stream.
Rust's `parse::<f64>()` on the accumulated decimal string is modelled
exactly by rational arithmetic on the digit strings. -/
def number (x : Char) (cs : List Char) : Token × List Char :=
  let (ds, r1) := consume_while Char.isDigit cs
  match r1 with
  | '.' :: d :: _ =>
    if d.isDigit then
      let (fs, r2) := consume_while Char.isDigit r1.tail
      (.Number (((digitsToNat ((x :: ds) ++ fs) : Nat) : Rat) /
          (10 : Rat) ^ fs.length), r2)
    else (.Number ((digitsToNat (x :: ds) : Nat) : Rat), r1)
  | _ => (.Number ((digitsToNat (x :: ds) : Nat) : Rat), r1)

/-- Lexer::match_token: dispatch on one consumed character, consuming more of
the stream as needed.  `None` results are skipped tokens (whitespace and
comments).  The two `panic!` invocations of the source are the `panicked`
failures. -/
def match_token (ch : Char) (cs : List Char) :
    Except LexFailure (Option Token × List Char) :=
  match ch with
  | '=' => let (t, r) := either '=' .EqualEqual .Equal cs; .ok (some t, r)
  | '!' => let (t, r) := either '=' .BangEqual .Bang cs; .ok (some t, r)
  | '<' => let (t, r) := either '=' .LessEqual .Less cs; .ok (some t, r)
  | '>' => let (t, r) := either '=' .GreaterEqual .Greater cs; .ok (some t, r)
  | ' ' => .ok (none, cs)
  | '/' =>
    match cs with
    | '/' :: rest => .ok (none, rest.dropWhile (fun c => c ≠ '\n'))
    | _ => .ok (some .Slash, cs)
  | '\n' => .ok (none, cs)
  | '\t' => .ok (none, cs)
  | '\r' => .ok (none, cs)
  | '"' =>
    match cs.dropWhile (fun c => c ≠ '"') with
    | [] => .error (.panicked "Unterminated string")
    | _ :: rest => .ok (some (.String (String.mk (cs.takeWhile (fun c => c ≠ '"')))), rest)
  | c =>
    if c.isDigit then
      let (t, r) := number c cs; .ok (some t, r)
    else if c.isAlpha || c = '_' then
      let (t, r) := identifier c cs; .ok (some t, r)
    else match c with
      | '.' => .ok (some .Dot, cs)
      | '(' => .ok (some .LeftParen, cs)
      | ')' => .ok (some .RightParen, cs)
      | '{' => .ok (some .LeftBrace, cs)
      | '}' => .ok (some .RightBrace, cs)
      | ',' => .ok (some .Comma, cs)
      | '-' => .ok (some .Minus, cs)
      | '+' => .ok (some .Plus, cs)
      | ';' => .ok (some .Semicolon, cs)
      | '*' => .ok (some .Star, cs)
      | _ => .error (.panicked "invalid char")

/-- Lexer::tokenize: drive `match_token` over the stream.  Each iteration
consumes at least the dispatched character, so the source loop terminates;
here the iteration count is bounded by fuel, and the entry point passes one
unit of fuel per remaining character, which is always sufficient. -/
def tokenize_go (fuel : Nat) (cs : List Char) : Except LexFailure (List Token) :=
  match fuel, cs with
  | _, [] => .ok []
  | 0, _ => .error (.panicked "out of fuel")
  | fuel + 1, ch :: rest =>
    match match_token ch rest with
    | .error e => .error e
    | .ok (some t, rest') =>
      match tokenize_go fuel rest' with
      | .ok ts => .ok (t :: ts)
      | .error e => .error e
    | .ok (none, rest') => tokenize_go fuel rest'

/-- Entry point `tokenize` of `tokenizer.rs`. -/
def tokenize (buf : String) : Except LexFailure (List Token) :=
  tokenize_go (buf.toList.length + 1) buf.toList

/-! ## Positions and spans

Modelled from the spec: section 3 (`position.rs` is not under the given
sources).  Spans decorate tokens and `var` names; they never influence which
statements are parsed. -/

structure Position where
  line : Nat
  column : Nat
  deriving DecidableEq, Repr

structure Span where
  start : Position
  stop : Position
  deriving DecidableEq, Repr

structure WithSpan (α : Type) where
  value : α
  span : Span
  deriving DecidableEq, Repr

/-! ## Abstract syntax tree

Modelled from the spec: section 3 (`ast.rs` is not under the given sources;
the variants and payloads are exactly those used by `stmt_parser.rs` and
`statements.rs`). -/

abbrev Identifier := String

inductive UnaryOperator where
  | Minus | Bang
  deriving DecidableEq, Repr

inductive BinaryOperator where
  | Plus | Minus | Star | Slash
  | EqualEqual | BangEqual | Less | LessEqual | Greater | GreaterEqual
  deriving DecidableEq, Repr

inductive LogicalOperator where
  | And | Or
  deriving DecidableEq, Repr

inductive Expr where
  | Number (value : Rat)
  | String (value : String)
  | Boolean (value : Bool)
  | Nil
  | Variable (name : Identifier)
  | Assign (name : Identifier) (value : Expr)
  | Unary (op : UnaryOperator) (operand : Expr)
  | Binary (left : Expr) (op : BinaryOperator) (right : Expr)
  | Logical (left : Expr) (op : LogicalOperator) (right : Expr)
  | Grouping (inner : Expr)
  | Call (callee : Expr) (args : List Expr)
  | Get (object : Expr) (name : Identifier)
  | Set (object : Expr) (name : Identifier) (value : Expr)
  | This
  | Super (method : Identifier)
  deriving Repr

inductive Stmt where
  | Expression (e : Expr)
  | Print (e : Expr)
  | Var (name : WithSpan Identifier) (init : Option Expr)
  | Block (stmts : List Stmt)
  | If (cond : Expr) (thenBranch : Stmt) (elseBranch : Option Stmt)
  | While (cond : Expr) (body : Stmt)
  | Function (name : Identifier) (params : List Identifier) (body : List Stmt)
  | Return (e : Option Expr)
  | Class (name : Identifier) (superclass : Option Identifier) (methods : List Stmt)
  deriving Repr

abbrev Ast := List Stmt

/-! ## Parser plumbing

Modelled from the spec: the helpers of `common.rs` (`peek`, `expect`,
`optionally` and the `expect!` macros) are not under the given sources; their
behavior is reconstructed from the call sites in `stmt_parser.rs` and the
error strings of section 7 and the source tests. -/

structure ParseError where
  error : String
  span : Option Span
  deriving DecidableEq, Repr

abbrev TokenS := Lox.WithSpan Token

/-- Debug-style name of a token, used in parse error messages
("Expected LeftBrace got Less", "unexpected token: Var", ...). -/
def token_name : Token → String
  | .LeftParen => "LeftParen"
  | .RightParen => "RightParen"
  | .LeftBrace => "LeftBrace"
  | .RightBrace => "RightBrace"
  | .Comma => "Comma"
  | .Dot => "Dot"
  | .Minus => "Minus"
  | .Plus => "Plus"
  | .Semicolon => "Semicolon"
  | .Star => "Star"
  | .Slash => "Slash"
  | .Equal => "Equal"
  | .EqualEqual => "EqualEqual"
  | .Bang => "Bang"
  | .BangEqual => "BangEqual"
  | .Less => "Less"
  | .LessEqual => "LessEqual"
  | .Greater => "Greater"
  | .GreaterEqual => "GreaterEqual"
  | .And => "And"
  | .Class => "Class"
  | .Else => "Else"
  | .False => "False"
  | .For => "For"
  | .Fun => "Fun"
  | .If => "If"
  | .Nil => "Nil"
  | .Or => "Or"
  | .Print => "Print"
  | .Return => "Return"
  | .Super => "Super"
  | .This => "This"
  | .True => "True"
  | .Var => "Var"
  | .While => "While"
  | .Number _ => "Number"
  | .String _ => "String"
  | .Identifier _ => "Identifier"

/-- The `expect` helper: consume the next token, which must equal the given
one. -/
def expect (t : Token) (ts : List TokenS) : Except ParseError (Token × List TokenS) :=
  match ts with
  | [] => .error ⟨"Expected " ++ token_name t ++ " got None", none⟩
  | x :: rest =>
    if x.value = t then .ok (x.value, rest)
    else .error ⟨"Expected " ++ token_name t ++ " got " ++ token_name x.value, some x.span⟩

/-- The `expect!(it, Token::Identifier(i) => i)` macro: consume an identifier
token and return its name. -/
def expect_identifier (ts : List TokenS) : Except ParseError (String × List TokenS) :=
  match ts with
  | [] => .error ⟨"Unexpected None", none⟩
  | x :: rest =>
    match x.value with
    | .Identifier i => .ok (i, rest)
    | t => .error ⟨"Unexpected " ++ token_name t, some x.span⟩

/-- The `expect_with_span!` macro: like `expect_identifier` but keeping the
token's span. -/
def expect_identifier_with_span (ts : List TokenS) :
    Except ParseError (WithSpan String × List TokenS) :=
  match ts with
  | [] => .error ⟨"Unexpected None", none⟩
  | x :: rest =>
    match x.value with
    | .Identifier i => .ok (⟨i, x.span⟩, rest)
    | t => .error ⟨"Unexpected " ++ token_name t, some x.span⟩

/-- The `optionally` helper: consume the next token if it equals the given
one, reporting whether it did. -/
def optionally (t : Token) (ts : List TokenS) : Bool × List TokenS :=
  match ts with
  | [] => (false, ts)
  | x :: rest => if x.value = t then (true, rest) else (false, ts)

/-- Peek at the next token (`peek(it)?`); end of stream is a parse error at
the call sites that use it. -/
def peek_token (ts : List TokenS) : Except ParseError Token :=
  match ts with
  | [] => .error ⟨"Unexpected None", none⟩
  | x :: _ => .ok x.value

/-- Fuel exhaustion for the fueled parser recursion; never reached when the
entry point's fuel allowance is used. -/
def fuelError : ParseError := ⟨"out of fuel", none⟩

/-! ## Expression parser

Modelled from the spec: section 4.2 (`expr_parser.rs` is not under the given
sources).  Pratt levels, lowest to highest: assignment (right associative),
or, and, equality, comparison, term, factor, unary, call, primary. -/

mutual

def parse_expr (fuel : Nat) (ts : List TokenS) : Except ParseError (Expr × List TokenS) :=
  match fuel with
  | 0 => .error fuelError
  | fuel + 1 => parse_assignment fuel ts

def parse_assignment (fuel : Nat) (ts : List TokenS) : Except ParseError (Expr × List TokenS) :=
  match fuel with
  | 0 => .error fuelError
  | fuel + 1 => do
    let (lhs, ts) ← parse_or fuel ts
    let (isEq, ts') := optionally .Equal ts
    if isEq then do
      let (rhs, ts'') ← parse_assignment fuel ts'
      match lhs with
      | .Variable i => .ok (.Assign i rhs, ts'')
      | .Get obj i => .ok (.Set obj i rhs, ts'')
      | _ => .error ⟨"Invalid assignment target", none⟩
    else .ok (lhs, ts)

def parse_or (fuel : Nat) (ts : List TokenS) : Except ParseError (Expr × List TokenS) :=
  match fuel with
  | 0 => .error fuelError
  | fuel + 1 => do
    let (l, ts) ← parse_and fuel ts
    parse_or_rest fuel l ts

def parse_or_rest (fuel : Nat) (l : Expr) (ts : List TokenS) :
    Except ParseError (Expr × List TokenS) :=
  match fuel with
  | 0 => .error fuelError
  | fuel + 1 =>
    let (isOr, ts') := optionally .Or ts
    if isOr then do
      let (r, ts'') ← parse_and fuel ts'
      parse_or_rest fuel (.Logical l .Or r) ts''
    else .ok (l, ts)

def parse_and (fuel : Nat) (ts : List TokenS) : Except ParseError (Expr × List TokenS) :=
  match fuel with
  | 0 => .error fuelError
  | fuel + 1 => do
    let (l, ts) ← parse_equality fuel ts
    parse_and_rest fuel l ts

def parse_and_rest (fuel : Nat) (l : Expr) (ts : List TokenS) :
    Except ParseError (Expr × List TokenS) :=
  match fuel with
  | 0 => .error fuelError
  | fuel + 1 =>
    let (isAnd, ts') := optionally .And ts
    if isAnd then do
      let (r, ts'') ← parse_equality fuel ts'
      parse_and_rest fuel (.Logical l .And r) ts''
    else .ok (l, ts)

def parse_equality (fuel : Nat) (ts : List TokenS) : Except ParseError (Expr × List TokenS) :=
  match fuel with
  | 0 => .error fuelError
  | fuel + 1 => do
    let (l, ts) ← parse_comparison fuel ts
    parse_equality_rest fuel l ts

def parse_equality_rest (fuel : Nat) (l : Expr) (ts : List TokenS) :
    Except ParseError (Expr × List TokenS) :=
  match fuel with
  | 0 => .error fuelError
  | fuel + 1 =>
    match ts with
    | x :: ts' =>
      match x.value with
      | .EqualEqual => do
        let (r, ts'') ← parse_comparison fuel ts'
        parse_equality_rest fuel (.Binary l .EqualEqual r) ts''
      | .BangEqual => do
        let (r, ts'') ← parse_comparison fuel ts'
        parse_equality_rest fuel (.Binary l .BangEqual r) ts''
      | _ => .ok (l, ts)
    | [] => .ok (l, ts)

def parse_comparison (fuel : Nat) (ts : List TokenS) : Except ParseError (Expr × List TokenS) :=
  match fuel with
  | 0 => .error fuelError
  | fuel + 1 => do
    let (l, ts) ← parse_term fuel ts
    parse_comparison_rest fuel l ts

def parse_comparison_rest (fuel : Nat) (l : Expr) (ts : List TokenS) :
    Except ParseError (Expr × List TokenS) :=
  match fuel with
  | 0 => .error fuelError
  | fuel + 1 =>
    match ts with
    | x :: ts' =>
      match x.value with
      | .Less => do
        let (r, ts'') ← parse_term fuel ts'
        parse_comparison_rest fuel (.Binary l .Less r) ts''
      | .LessEqual => do
        let (r, ts'') ← parse_term fuel ts'
        parse_comparison_rest fuel (.Binary l .LessEqual r) ts''
      | .Greater => do
        let (r, ts'') ← parse_term fuel ts'
        parse_comparison_rest fuel (.Binary l .Greater r) ts''
      | .GreaterEqual => do
        let (r, ts'') ← parse_term fuel ts'
        parse_comparison_rest fuel (.Binary l .GreaterEqual r) ts''
      | _ => .ok (l, ts)
    | [] => .ok (l, ts)

def parse_term (fuel : Nat) (ts : List TokenS) : Except ParseError (Expr × List TokenS) :=
  match fuel with
  | 0 => .error fuelError
  | fuel + 1 => do
    let (l, ts) ← parse_factor fuel ts
    parse_term_rest fuel l ts

def parse_term_rest (fuel : Nat) (l : Expr) (ts : List TokenS) :
    Except ParseError (Expr × List TokenS) :=
  match fuel with
  | 0 => .error fuelError
  | fuel + 1 =>
    match ts with
    | x :: ts' =>
      match x.value with
      | .Plus => do
        let (r, ts'') ← parse_factor fuel ts'
        parse_term_rest fuel (.Binary l .Plus r) ts''
      | .Minus => do
        let (r, ts'') ← parse_factor fuel ts'
        parse_term_rest fuel (.Binary l .Minus r) ts''
      | _ => .ok (l, ts)
    | [] => .ok (l, ts)

def parse_factor (fuel : Nat) (ts : List TokenS) : Except ParseError (Expr × List TokenS) :=
  match fuel with
  | 0 => .error fuelError
  | fuel + 1 => do
    let (l, ts) ← parse_unary fuel ts
    parse_factor_rest fuel l ts

def parse_factor_rest (fuel : Nat) (l : Expr) (ts : List TokenS) :
    Except ParseError (Expr × List TokenS) :=
  match fuel with
  | 0 => .error fuelError
  | fuel + 1 =>
    match ts with
    | x :: ts' =>
      match x.value with
      | .Star => do
        let (r, ts'') ← parse_unary fuel ts'
        parse_factor_rest fuel (.Binary l .Star r) ts''
      | .Slash => do
        let (r, ts'') ← parse_unary fuel ts'
        parse_factor_rest fuel (.Binary l .Slash r) ts''
      | _ => .ok (l, ts)
    | [] => .ok (l, ts)

def parse_unary (fuel : Nat) (ts : List TokenS) : Except ParseError (Expr × List TokenS) :=
  match fuel with
  | 0 => .error fuelError
  | fuel + 1 =>
    match ts with
    | x :: ts' =>
      match x.value with
      | .Bang => do
        let (e, ts'') ← parse_unary fuel ts'
        .ok (.Unary .Bang e, ts'')
      | .Minus => do
        let (e, ts'') ← parse_unary fuel ts'
        .ok (.Unary .Minus e, ts'')
      | _ => parse_call fuel ts
    | [] => parse_call fuel ts

def parse_call (fuel : Nat) (ts : List TokenS) : Except ParseError (Expr × List TokenS) :=
  match fuel with
  | 0 => .error fuelError
  | fuel + 1 => do
    let (e, ts) ← parse_primary fuel ts
    parse_call_rest fuel e ts

def parse_call_rest (fuel : Nat) (e : Expr) (ts : List TokenS) :
    Except ParseError (Expr × List TokenS) :=
  match fuel with
  | 0 => .error fuelError
  | fuel + 1 =>
    match ts with
    | x :: ts' =>
      match x.value with
      | .LeftParen => do
        let (args, ts'') ←
          match ts' with
          | y :: _ =>
            if y.value = Token.RightParen then .ok (([] : List Expr), ts')
            else parse_args fuel ts'
          | [] => parse_args fuel ts'
        let (_, ts''') ← expect .RightParen ts''
        parse_call_rest fuel (.Call e args) ts'''
      | .Dot => do
        let (i, ts'') ← expect_identifier ts'
        parse_call_rest fuel (.Get e i) ts''
      | _ => .ok (e, ts)
    | [] => .ok (e, ts)

def parse_args (fuel : Nat) (ts : List TokenS) :
    Except ParseError (List Expr × List TokenS) :=
  match fuel with
  | 0 => .error fuelError
  | fuel + 1 => do
    let (first, ts) ← parse_expr fuel ts
    let (rest, ts') ← parse_args_rest fuel ts
    .ok (first :: rest, ts')

def parse_args_rest (fuel : Nat) (ts : List TokenS) :
    Except ParseError (List Expr × List TokenS) :=
  match fuel with
  | 0 => .error fuelError
  | fuel + 1 =>
    let (isComma, ts') := optionally .Comma ts
    if isComma then do
      let (e, ts'') ← parse_expr fuel ts'
      let (rest, ts''') ← parse_args_rest fuel ts''
      .ok (e :: rest, ts''')
    else .ok ([], ts)

def parse_primary (fuel : Nat) (ts : List TokenS) : Except ParseError (Expr × List TokenS) :=
  match fuel with
  | 0 => .error fuelError
  | fuel + 1 =>
    match ts with
    | [] => .error ⟨"Unexpected None", none⟩
    | x :: ts' =>
      match x.value with
      | .Number n => .ok (.Number n, ts')
      | .String s => .ok (.String s, ts')
      | .True => .ok (.Boolean true, ts')
      | .False => .ok (.Boolean false, ts')
      | .Nil => .ok (.Nil, ts')
      | .Identifier i => .ok (.Variable i, ts')
      | .This => .ok (.This, ts')
      | .Super => do
        let (_, ts'') ← expect .Dot ts'
        let (m, ts''') ← expect_identifier ts''
        .ok (.Super m, ts''')
      | .LeftParen => do
        let (e, ts'') ← parse_expr fuel ts'
        let (_, ts''') ← expect .RightParen ts''
        .ok (.Grouping e, ts''')
      | t => .error ⟨"unexpected token: " ++ token_name t, some x.span⟩

end

/-! ## Statement parser (`src/lox-compiler/src/stmt_parser.rs`) -/

mutual

def parse_program (fuel : Nat) (ts : List TokenS) :
    Except ParseError (List Stmt × List TokenS) :=
  match fuel with
  | 0 => .error fuelError
  | fuel + 1 =>
    match ts with
    | [] => .ok ([], [])
    | _ :: _ => do
      let (s, ts') ← parse_declaration fuel ts
      let (rest, ts'') ← parse_program fuel ts'
      .ok (s :: rest, ts'')

def parse_declaration (fuel : Nat) (ts : List TokenS) :
    Except ParseError (Stmt × List TokenS) :=
  match fuel with
  | 0 => .error fuelError
  | fuel + 1 => do
    match ← peek_token ts with
    | .Var => parse_var_declaration fuel ts
    | .Fun => parse_function_declaration fuel ts
    | .Class => parse_class_declaration fuel ts
    | _ => parse_statement fuel ts

def parse_statement (fuel : Nat) (ts : List TokenS) :
    Except ParseError (Stmt × List TokenS) :=
  match fuel with
  | 0 => .error fuelError
  | fuel + 1 => do
    match ← peek_token ts with
    | .Print => parse_print_statement fuel ts
    | .If => parse_if_statement fuel ts
    | .LeftBrace => parse_block_statement fuel ts
    | .While => parse_while_statement fuel ts
    | .Return => parse_return_statement fuel ts
    | .For => parse_for_statement fuel ts
    | _ => parse_expr_statement fuel ts

def parse_class_declaration (fuel : Nat) (ts : List TokenS) :
    Except ParseError (Stmt × List TokenS) :=
  match fuel with
  | 0 => .error fuelError
  | fuel + 1 => do
    let (_, ts) ← expect .Class ts
    let (name, ts) ← expect_identifier ts
    let (isLess, ts) := optionally .Less ts
    let (superclass, ts) ←
      if isLess then do
        let (sup, ts') ← expect_identifier ts
        pure (some sup, ts')
      else pure ((none : Option Identifier), ts)
    let (_, ts) ← expect .LeftBrace ts
    let (functions, ts) ← parse_function_list fuel ts
    let (_, ts) ← expect .RightBrace ts
    .ok (.Class name superclass functions, ts)

def parse_function_list (fuel : Nat) (ts : List TokenS) :
    Except ParseError (List Stmt × List TokenS) :=
  match fuel with
  | 0 => .error fuelError
  | fuel + 1 => do
    if (← peek_token ts) = Token.RightBrace then .ok ([], ts)
    else do
      let (f, ts') ← parse_function fuel ts
      let (rest, ts'') ← parse_function_list fuel ts'
      .ok (f :: rest, ts'')

def parse_function_declaration (fuel : Nat) (ts : List TokenS) :
    Except ParseError (Stmt × List TokenS) :=
  match fuel with
  | 0 => .error fuelError
  | fuel + 1 => do
    let (_, ts) ← expect .Fun ts
    parse_function fuel ts

def parse_function (fuel : Nat) (ts : List TokenS) :
    Except ParseError (Stmt × List TokenS) :=
  match fuel with
  | 0 => .error fuelError
  | fuel + 1 => do
    let (name, ts) ← expect_identifier ts
    let (_, ts) ← expect .LeftParen ts
    let (params, ts) ←
      if (← peek_token ts) ≠ Token.RightParen then parse_params fuel ts
      else pure (([] : List Identifier), ts)
    let (_, ts) ← expect .RightParen ts
    let (_, ts) ← expect .LeftBrace ts
    let (body, ts) ← parse_declaration_list fuel ts
    let (_, ts) ← expect .RightBrace ts
    .ok (.Function name params body, ts)

def parse_params (fuel : Nat) (ts : List TokenS) :
    Except ParseError (List Identifier × List TokenS) :=
  match fuel with
  | 0 => .error fuelError
  | fuel + 1 => do
    let (first, ts) ← expect_identifier ts
    let (rest, ts') ← parse_params_rest fuel ts
    .ok (first :: rest, ts')

def parse_params_rest (fuel : Nat) (ts : List TokenS) :
    Except ParseError (List Identifier × List TokenS) :=
  match fuel with
  | 0 => .error fuelError
  | fuel + 1 => do
    if (← peek_token ts) = Token.Comma then do
      let (_, ts') ← expect .Comma ts
      let (i, ts'') ← expect_identifier ts'
      let (rest, ts''') ← parse_params_rest fuel ts''
      .ok (i :: rest, ts''')
    else .ok ([], ts)

def parse_declaration_list (fuel : Nat) (ts : List TokenS) :
    Except ParseError (List Stmt × List TokenS) :=
  match fuel with
  | 0 => .error fuelError
  | fuel + 1 => do
    if (← peek_token ts) = Token.RightBrace then .ok ([], ts)
    else do
      let (s, ts') ← parse_declaration fuel ts
      let (rest, ts'') ← parse_declaration_list fuel ts'
      .ok (s :: rest, ts'')

def parse_var_declaration (fuel : Nat) (ts : List TokenS) :
    Except ParseError (Stmt × List TokenS) :=
  match fuel with
  | 0 => .error fuelError
  | fuel + 1 => do
    let (_, ts) ← expect .Var ts
    let (name, ts) ← expect_identifier_with_span ts
    let (isEq, ts) := optionally .Equal ts
    let (init, ts) ←
      if isEq then do
        let (e, ts') ← parse_expr fuel ts
        pure (some e, ts')
      else pure ((none : Option Expr), ts)
    let (_, ts) ← expect .Semicolon ts
    .ok (.Var name init, ts)

def parse_for_statement (fuel : Nat) (ts : List TokenS) :
    Except ParseError (Stmt × List TokenS) :=
  match fuel with
  | 0 => .error fuelError
  | fuel + 1 => do
    let (_, ts) ← expect .For ts
    let (_, ts) ← expect .LeftParen ts
    let (initializer, ts) ← do
      match ← peek_token ts with
      | .Var => do
        let (s, ts') ← parse_var_declaration fuel ts
        pure (some s, ts')
      | .Semicolon => do
        let (_, ts') ← expect .Semicolon ts
        pure ((none : Option Stmt), ts')
      | _ => do
        let (s, ts') ← parse_expr_statement fuel ts
        pure (some s, ts')
    let (condition, ts) ←
      if (← peek_token ts) ≠ Token.Semicolon then parse_expr fuel ts
      else pure (Expr.Boolean true, ts)
    let (_, ts) ← expect .Semicolon ts
    let (increment, ts) ←
      if (← peek_token ts) ≠ Token.RightParen then do
        let (e, ts') ← parse_expr fuel ts
        pure (some e, ts')
      else pure ((none : Option Expr), ts)
    let (_, ts) ← expect .RightParen ts
    let (body, ts) ← parse_statement fuel ts
    let body :=
      match increment with
      | some expr => Stmt.Block [body, Stmt.Expression expr]
      | none => body
    let body := Stmt.While condition body
    let body :=
      match initializer with
      | some stmt => Stmt.Block [stmt, body]
      | none => body
    .ok (body, ts)

def parse_return_statement (fuel : Nat) (ts : List TokenS) :
    Except ParseError (Stmt × List TokenS) :=
  match fuel with
  | 0 => .error fuelError
  | fuel + 1 => do
    let (_, ts) ← expect .Return ts
    let (e, ts) ←
      if (← peek_token ts) ≠ Token.Semicolon then do
        let (e, ts') ← parse_expr fuel ts
        pure (some e, ts')
      else pure ((none : Option Expr), ts)
    let (_, ts) ← expect .Semicolon ts
    .ok (.Return e, ts)

def parse_expr_statement (fuel : Nat) (ts : List TokenS) :
    Except ParseError (Stmt × List TokenS) :=
  match fuel with
  | 0 => .error fuelError
  | fuel + 1 => do
    let (e, ts) ← parse_expr fuel ts
    let (_, ts) ← expect .Semicolon ts
    .ok (.Expression e, ts)

def parse_block_statement (fuel : Nat) (ts : List TokenS) :
    Except ParseError (Stmt × List TokenS) :=
  match fuel with
  | 0 => .error fuelError
  | fuel + 1 => do
    let (_, ts) ← expect .LeftBrace ts
    let (statements, ts) ← parse_declaration_list fuel ts
    let (_, ts) ← expect .RightBrace ts
    .ok (.Block statements, ts)

def parse_while_statement (fuel : Nat) (ts : List TokenS) :
    Except ParseError (Stmt × List TokenS) :=
  match fuel with
  | 0 => .error fuelError
  | fuel + 1 => do
    let (_, ts) ← expect .While ts
    let (_, ts) ← expect .LeftParen ts
    let (condition, ts) ← parse_expr fuel ts
    let (_, ts) ← expect .RightParen ts
    let (statement, ts) ← parse_statement fuel ts
    .ok (.While condition statement, ts)

def parse_if_statement (fuel : Nat) (ts : List TokenS) :
    Except ParseError (Stmt × List TokenS) :=
  match fuel with
  | 0 => .error fuelError
  | fuel + 1 => do
    let (_, ts) ← expect .If ts
    let (_, ts) ← expect .LeftParen ts
    let (condition, ts) ← parse_expr fuel ts
    let (_, ts) ← expect .RightParen ts
    let (ifStmt, ts) ← parse_statement fuel ts
    let (isElse, ts) := optionally .Else ts
    let (elseStmt, ts) ←
      if isElse then do
        let (s, ts') ← parse_statement fuel ts
        pure (some s, ts')
      else pure ((none : Option Stmt), ts)
    .ok (.If condition ifStmt elseStmt, ts)

def parse_print_statement (fuel : Nat) (ts : List TokenS) :
    Except ParseError (Stmt × List TokenS) :=
  match fuel with
  | 0 => .error fuelError
  | fuel + 1 => do
    let (_, ts) ← expect .Print ts
    let (expr, ts) ← parse_expr fuel ts
    let (_, ts) ← expect .Semicolon ts
    .ok (.Print expr, ts)

end

/-- Entry point `parse` of `stmt_parser.rs` (`parse_program` driven to end of
stream).  The fuel bound is generous: the parser consumes a token or descends
one fixed-depth precedence chain per call. -/
def parse (ts : List TokenS) : Except ParseError (List Stmt) :=
  match parse_program (ts.length * 32 + 32) ts with
  | .ok (stmts, _) => .ok stmts
  | .error e => .error e

/-- Attach a fixed dummy span to each token.  Modelled from the spec: the
span-annotating lexer (`tokenize_with_context`) is not under the given
sources; spans influence only error reports and the span stored in `Var`
names, never which statements are parsed. -/
def with_dummy_spans (ts : List Token) : List TokenS :=
  ts.map (fun t => ⟨t, ⟨⟨1, 1⟩, ⟨1, 1⟩⟩⟩)

/-- The test harness `parse_str` of `stmt_parser.rs`: tokenize, parse, and
keep only the error message on failure. -/
def parse_str (data : String) : Except String (List Stmt) :=
  match tokenize data with
  | .error (.panicked m) => .error m
  | .ok toks =>
    match parse (with_dummy_spans toks) with
    | .ok stmts => .ok stmts
    | .error e => .error e.error

/-- Modelled from the spec: the desugared shape of
`for (init; cond; incr) body` — the handwritten
`{ init; while (cond) { body; incr; } }` with the `init` wrapper block
omitted when `init` is absent and the inner block omitted when `incr` is
absent (sections 4.3 and 8). -/
def for_desugar (init : Option Stmt) (cond : Expr) (incr : Option Expr)
    (body : Stmt) : Stmt :=
  let inner :=
    match incr with
    | some e => Stmt.Block [body, Stmt.Expression e]
    | none => body
  let whileStmt := Stmt.While cond inner
  match init with
  | some s => Stmt.Block [s, whileStmt]
  | none => whileStmt

/-! ## Bytecode model

Modelled from the spec: section 3 and section 6 (`bytecode.rs` is not under
the given sources; the constructors and payloads are exactly those used by
`statements.rs` and `mod.rs`). -/

structure Upvalue where
  index : Nat
  is_local : Bool
  deriving DecidableEq, Repr

structure Function where
  name : String
  chunk_index : Nat
  arity : Nat
  deriving DecidableEq, Repr

structure Closure where
  callable : Function
  upvalues : List Upvalue
  deriving DecidableEq, Repr

structure Class where
  name : String
  deriving DecidableEq, Repr

inductive Constant where
  | Number (value : Rat)
  | String (value : String)
  | Closure (value : Closure)
  | Class (value : Class)
  deriving DecidableEq, Repr

inductive Instruction where
  | Constant (index : Nat)
  | Nil | True | False | Pop
  | GetLocal (slot : Nat) | SetLocal (slot : Nat)
  | GetGlobal (index : Nat) | SetGlobal (index : Nat) | DefineGlobal (index : Nat)
  | GetUpvalue (index : Nat) | SetUpvalue (index : Nat)
  | GetProperty (index : Nat) | SetProperty (index : Nat)
  | Equal | Greater | Less
  | Add | Subtract | Multiply | Divide
  | Not | Negate | Print
  | Jump (target : Nat) | JumpIfFalse (target : Nat)
  | Call (arity : Nat)
  | Closure (index : Nat) | Class (index : Nat)
  | Return
  deriving DecidableEq, Repr

structure Chunk where
  instructions : List Instruction
  constants : List Constant
  deriving DecidableEq, Repr

structure Module where
  chunks : List Chunk
  deriving DecidableEq, Repr

/-! ## Compiler state

Modelled from the spec: section 4.4 (`compiler.rs` and `locals.rs` are not
under the given sources).  A context is one chunk under construction;
finished chunks move into `Compiler.chunks` (the future module) when their
context is popped.  The context stack is kept topmost first. -/

structure Local where
  name : String
  depth : Option Nat
  is_captured : Bool
  deriving DecidableEq, Repr

inductive ContextType where
  | TopLevel
  | Function
  deriving DecidableEq, Repr

structure Context where
  ctype : ContextType
  chunk : List Instruction
  constants : List Constant
  locals : List Local
  scope_depth : Nat
  upvalues : List Upvalue
  deriving DecidableEq, Repr

structure Compiler where
  chunks : List Chunk
  contexts : List Context
  deriving DecidableEq, Repr

/-- CompilerError of `src/src/bettercompiler/mod.rs`.  The
`WithSpan(WithSpan<Box<CompilerError>>)` variant is flattened to its two
components. -/
inductive CompilerError where
  | UnpatchableInstruction (instruction : Instruction)
  | NoContext
  | LocalAlreadyDefined (name : String)
  | LocalNotInitialized (name : String)
  | Multiple (errors : List CompilerError)
  | WithSpan (span : Span) (e : CompilerError)

/-- Outcome of a compiler step that did not return normally: an ordinary
`Err(CompilerError)` return, or a Rust panic (`unimplemented!`, and fuel
exhaustion of the model).  Panics unwind past every caller; only `err`
values are caught by `compile_ast`'s error collection. -/
inductive Failure where
  | err (e : CompilerError)
  | panicked (msg : String)

/-- Result of running a compiler computation: Rust mutates the compiler in
place, so the state is available on both normal and failing returns. -/
inductive CRes (α : Type) where
  | ok (a : α) (c : Compiler)
  | err (f : Failure) (c : Compiler)

/-- State-and-error monad modelling `&mut Compiler` plus
`Result<_, CompilerError>` plus panics. -/
def CompM (α : Type) : Type := Compiler → CRes α

def pureC {α : Type} (a : α) : CompM α := fun c => .ok a c

def bindC {α β : Type} (m : CompM α) (f : α → CompM β) : CompM β := fun c =>
  match m c with
  | .ok a c' => f a c'
  | .err e c' => .err e c'

instance : Monad CompM where
  pure := pureC
  bind := bindC

def throwErr {α : Type} (e : CompilerError) : CompM α := fun c => .err (.err e) c

def compilePanic {α : Type} (msg : String) : CompM α := fun c => .err (.panicked msg) c

def getCompiler : CompM Compiler := fun c => .ok c c

/-- Fuel exhaustion of the fueled compiler recursion, modelled as a panic so
that it is never caught by error collection; unreachable from the entry
points' fuel allowance. -/
def outOfFuelC {α : Type} : CompM α := compilePanic "out of fuel"

/-- Instructions of the chunk of the current (topmost) context. -/
def current_chunk (c : Compiler) : List Instruction :=
  match c.contexts with
  | [] => []
  | ctx :: _ => ctx.chunk

/-- Compiler::add_instruction: append to the current chunk, returning the
index of the appended instruction. -/
def add_instruction (i : Instruction) : CompM Nat := fun c =>
  match c.contexts with
  | [] => .err (.err .NoContext) c
  | ctx :: rest => .ok ctx.chunk.length ⟨c.chunks, { ctx with chunk := ctx.chunk ++ [i] } :: rest⟩

/-- Compiler::instruction_index: the current end of the chunk. -/
def instruction_index : CompM Nat := fun c => .ok (current_chunk c).length c

/-- Retarget a jump instruction; other instructions are unpatchable. -/
def patch_target (i : Instruction) (target : Nat) : Option Instruction :=
  match i with
  | .Jump _ => some (.Jump target)
  | .JumpIfFalse _ => some (.JumpIfFalse target)
  | _ => none

/-- Compiler::patch_instruction_to: rewrite the jump at `index` to the given
absolute target. -/
def patch_instruction_to (index target : Nat) : CompM Unit := fun c =>
  match c.contexts with
  | [] => .err (.err .NoContext) c
  | ctx :: rest =>
    let instr := ctx.chunk.getD index .Nil
    match patch_target instr target with
    | some i' => .ok () ⟨c.chunks, { ctx with chunk := ctx.chunk.set index i' } :: rest⟩
    | none => .err (.err (.UnpatchableInstruction instr)) c

/-- Compiler::patch_instruction: rewrite the jump at `index` to the current
end of the chunk. -/
def patch_instruction (index : Nat) : CompM Unit := fun c =>
  patch_instruction_to index (current_chunk c).length c

/-- Compiler::add_constant: append to the current context's constant pool
(per-chunk pools, no interning), returning the constant's index. -/
def add_constant (k : Constant) : CompM Nat := fun c =>
  match c.contexts with
  | [] => .err (.err .NoContext) c
  | ctx :: rest =>
    .ok ctx.constants.length ⟨c.chunks, { ctx with constants := ctx.constants ++ [k] } :: rest⟩

/-- Compiler::is_scoped: whether the current context is inside a scope
(`scope_depth > 0`); at depth 0 declarations are global. -/
def is_scoped (c : Compiler) : Bool :=
  match c.contexts with
  | [] => false
  | ctx :: _ => ctx.scope_depth > 0

/-- Scan (last declared first) for a local of the given name declared at the
current scope depth; locals of enclosing (strictly shallower) scopes stop
the scan. -/
def has_local_scan (name : String) (d : Nat) : List Local → Bool
  | [] => false
  | l :: rest =>
    match l.depth with
    | some dl => if dl < d then false else (l.name = name || has_local_scan name d rest)
    | none => l.name = name || has_local_scan name d rest

/-- Compiler::has_local_in_current_scope. -/
def has_local_in_current_scope (name : String) (c : Compiler) : Bool :=
  match c.contexts with
  | [] => false
  | ctx :: _ => has_local_scan name ctx.scope_depth ctx.locals.reverse

/-- Compiler::add_local: append a declared-but-uninitialized local
(`depth = None`). -/
def add_local (name : String) : CompM Unit := fun c =>
  match c.contexts with
  | [] => .err (.err .NoContext) c
  | ctx :: rest =>
    .ok () ⟨c.chunks, { ctx with locals := ctx.locals ++ [⟨name, none, false⟩] } :: rest⟩

/-- Compiler::mark_local_initialized: give the most recently declared local
the current scope depth. -/
def mark_local_initialized : CompM Unit := fun c =>
  match c.contexts with
  | [] => .err (.err .NoContext) c
  | ctx :: rest =>
    match ctx.locals.getLast? with
    | none => .ok () c
    | some l =>
      .ok () ⟨c.chunks,
        { ctx with locals := ctx.locals.dropLast ++ [{ l with depth := some ctx.scope_depth }] } :: rest⟩

/-- Scan a reversed locals list (last declared first) for the name; a hit on
an uninitialized local is the use-in-own-initializer error; otherwise the
slot index is the number of locals declared before it. -/
def resolve_local_scan (name : String) : List Local → Except CompilerError (Option Nat)
  | [] => .ok none
  | l :: rest =>
    if l.name = name then
      match l.depth with
      | none => .error (.LocalNotInitialized name)
      | some _ => .ok (some rest.length)
    else resolve_local_scan name rest

/-- Resolve a name against one context's locals. -/
def resolve_local_ctx (name : String) (ctx : Context) : Except CompilerError (Option Nat) :=
  resolve_local_scan name ctx.locals.reverse

/-- Compiler::resolve_local on the current context. -/
def resolve_local (name : String) : CompM (Option Nat) := fun c =>
  match c.contexts with
  | [] => .ok none c
  | ctx :: _ =>
    match resolve_local_ctx name ctx with
    | .error e => .err (.err e) c
    | .ok r => .ok r c

/-- Add an upvalue descriptor to a context, deduplicating by
`(index, is_local)`; returns the upvalue's index in the context's table. -/
def add_upvalue_ctx (ctx : Context) (index : Nat) (isLocal : Bool) : Nat × Context :=
  match ctx.upvalues.findIdx? (fun u => u.index = index && u.is_local = isLocal) with
  | some i => (i, ctx)
  | none => (ctx.upvalues.length, { ctx with upvalues := ctx.upvalues ++ [⟨index, isLocal⟩] })

/-- Mark the local in the given slot as captured by a closure. -/
def mark_captured (ctx : Context) (slot : Nat) : Context :=
  { ctx with
    locals := ctx.locals.mapIdx (fun i l => if i = slot then { l with is_captured := true } else l) }

/-- Walk the enclosing contexts (topmost first) looking for the name: a local
hit in the immediate enclosing context is captured there and described as
`(slot, is_local := true)` for the caller; a deeper hit threads through the
enclosing context's own upvalue table and is described as
`(upvalue index, is_local := false)`. -/
def resolve_up_chain (name : String) :
    List Context → Except CompilerError (Option (Nat × Bool) × List Context)
  | [] => .ok (none, [])
  | enclosing :: rest =>
    match resolve_local_ctx name enclosing with
    | .error e => .error e
    | .ok (some slot) => .ok (some (slot, true), mark_captured enclosing slot :: rest)
    | .ok none =>
      match resolve_up_chain name rest with
      | .error e => .error e
      | .ok (none, rest') => .ok (none, enclosing :: rest')
      | .ok (some (j, jIsLocal), rest') =>
        let (k, enclosing') := add_upvalue_ctx enclosing j jIsLocal
        .ok (some (k, false), enclosing' :: rest')

/-- Compiler::resolve_upvalue on the current context. -/
def resolve_upvalue (name : String) : CompM (Option Nat) := fun c =>
  match c.contexts with
  | [] => .ok none c
  | cur :: rest =>
    match resolve_up_chain name rest with
    | .error e => .err (.err e) c
    | .ok (none, rest') => .ok none ⟨c.chunks, cur :: rest'⟩
    | .ok (some (idx, isLocal), rest') =>
      let (k, cur') := add_upvalue_ctx cur idx isLocal
      .ok (some k) ⟨c.chunks, cur' :: rest'⟩

/-- Compiler::push_scope. -/
def push_scope : CompM Unit := fun c =>
  match c.contexts with
  | [] => .ok () c
  | ctx :: rest => .ok () ⟨c.chunks, { ctx with scope_depth := ctx.scope_depth + 1 } :: rest⟩

/-- Whether a local survives a scope pop down to `newDepth`: only locals
whose depth exceeds the new depth are discarded; a declared-but-uninitialized
local (`depth = None`, such as the reserved slot 0 of the top level) does
not exceed any depth and survives. -/
def local_survives (newDepth : Nat) (l : Local) : Bool :=
  match l.depth with
  | some d => d ≤ newDepth
  | none => true

/-- Compiler::pop_scope: decrement the depth, discard the locals of the
closed scope, and emit one `Pop` per discarded local. -/
def pop_scope : CompM Unit := fun c =>
  match c.contexts with
  | [] => .ok () c
  | ctx :: rest =>
    let newDepth := ctx.scope_depth - 1
    let kept := ctx.locals.filter (local_survives newDepth)
    let dropped := ctx.locals.length - kept.length
    .ok () ⟨c.chunks,
      { ctx with
        scope_depth := newDepth
        locals := kept
        chunk := ctx.chunk ++ List.replicate dropped .Pop } :: rest⟩

/-- Compiler::with_scope: run the body one scope deeper.  Errors propagate
Rust-style (early return) without running the scope pop. -/
def with_scope {α : Type} (m : CompM α) : CompM α := do
  push_scope
  let a ← m
  pop_scope
  pure a

def new_context (t : ContextType) : Context := ⟨t, [], [], [], 0, []⟩

def push_context (t : ContextType) : CompM Unit := fun c =>
  .ok () ⟨c.chunks, new_context t :: c.contexts⟩

/-- Pop the finished context: its chunk and constant pool become the next
chunk of the module under construction, and its chunk index and upvalue
table are returned. -/
def pop_context : CompM (Nat × List Upvalue) := fun c =>
  match c.contexts with
  | [] => .err (.err .NoContext) c
  | ctx :: rest => .ok (c.chunks.length, ctx.upvalues) ⟨c.chunks ++ [⟨ctx.chunk, ctx.constants⟩], rest⟩

/-- Compiler::with_context: run the body in a fresh context and finish its
chunk.  Errors propagate without finishing the chunk. -/
def with_context {α : Type} (t : ContextType) (m : CompM α) : CompM (Nat × List Upvalue) := do
  push_context t
  let _ ← m
  pop_context

/-- Compiler::with_scoped_context: a fresh function context with slot 0
reserved for the callee (an unnamed local, initialized at depth 0, so scope
pops inside the function never discard it) and the body one scope deeper
(parameters and body live at depth 1 and below).  The function scope is
discarded together with the context: no `Pop`s are emitted after the
function's final `Return` (the VM's frame teardown pops the callee window),
keeping the invariant of section 3 that every finished chunk ends with
`Return`. -/
def with_scoped_context {α : Type} (t : ContextType) (m : CompM α) :
    CompM (Nat × List Upvalue) :=
  with_context t (do
    add_local ""
    mark_local_initialized
    push_scope
    m)

def into_module (c : Compiler) : Module := ⟨c.chunks⟩

/-- Compiler::new. -/
def newCompiler : Compiler := ⟨[], []⟩

/-! ## Statement compiler (`src/lox-compiler/src/bettercompiler/statements.rs`)

The non-recursive helpers come first; the mutually recursive emission
functions follow, fueled. -/

/-- declare_variable of `statements.rs`: in a scoped context, reject a
duplicate in the current scope and append an uninitialized local; at global
scope a no-op.  The duplicate error carries the name, following the
`LocalAlreadyDefined(String)` variant of `mod.rs`. -/
def declare_variable (identifier : String) : CompM Unit := fun c =>
  if is_scoped c then
    if has_local_in_current_scope identifier c then
      .err (.err (.LocalAlreadyDefined identifier)) c
    else add_local identifier c
  else .ok () c

/-- define_variable of `statements.rs`: in a scoped context, mark the newest
local initialized; at global scope, intern the name and emit DefineGlobal. -/
def define_variable (identifier : String) : CompM Unit := fun c =>
  if is_scoped c then mark_local_initialized c
  else
    (do
      let constant ← add_constant (.String identifier)
      let _ ← add_instruction (.DefineGlobal constant)
      pure ()) c

def compile_nil : CompM Unit := do
  let _ ← add_instruction .Nil
  pure ()

def compile_boolean (boolean : Bool) : CompM Unit :=
  if boolean then do
    let _ ← add_instruction .True
    pure ()
  else do
    let _ ← add_instruction .False
    pure ()

def compile_number (num : Rat) : CompM Unit := do
  let constant ← add_constant (.Number num)
  let _ ← add_instruction (.Constant constant)
  pure ()

def compile_string (string : String) : CompM Unit := do
  let constant ← add_constant (.String string)
  let _ ← add_instruction (.Constant constant)
  pure ()

def compile_variable (identifier : String) : CompM Unit := do
  match ← resolve_local identifier with
  | some slot => do
    let _ ← add_instruction (.GetLocal slot)
    pure ()
  | none =>
    match ← resolve_upvalue identifier with
    | some upvalue => do
      let _ ← add_instruction (.GetUpvalue upvalue)
      pure ()
    | none => do
      let constant ← add_constant (.String identifier)
      let _ ← add_instruction (.GetGlobal constant)
      pure ()

/-- compile_class: extends and methods are TODO in the source and ignored. -/
def compile_class (identifier : String) (_extends : Option String) (_stmts : List Stmt) :
    CompM Unit := do
  declare_variable identifier
  let constant ← add_constant (.Class ⟨identifier⟩)
  let _ ← add_instruction (.Class constant)
  define_variable identifier
  pure ()

/-- The parameter loop of compile_function. -/
def declare_and_define_params : List Identifier → CompM Unit
  | [] => pure ()
  | arg :: rest => do
    declare_variable arg
    define_variable arg
    declare_and_define_params rest

mutual

def compile_stmt (fuel : Nat) (stmt : Stmt) : CompM Unit :=
  match fuel with
  | 0 => outOfFuelC
  | fuel + 1 =>
    match stmt with
    | .Print e => compile_print fuel e
    | .Var identifier e => compile_var_declaration fuel identifier e
    | .Block stmts => compile_block fuel stmts
    | .Expression e => compile_expression_statement fuel e
    | .If cond thenStmt elseStmt => compile_if fuel cond thenStmt elseStmt
    | .While e s => compile_while fuel e s
    | .Function identifier args stmts => compile_function fuel identifier args stmts
    | .Return e => compile_return fuel e
    | .Class identifier ext stmts => compile_class identifier ext stmts

/-- compile_ast: compile each statement, collecting the `Err` results into a
single `Multiple` aggregate; statement order and the compiler state thread
through every statement regardless of earlier errors.  Panics unwind. -/
def compile_ast (fuel : Nat) (ast : List Stmt) : CompM Unit :=
  match fuel with
  | 0 => outOfFuelC
  | fuel + 1 => compile_ast_go fuel ast []

def compile_ast_go (fuel : Nat) (stmts : List Stmt) (errs : List CompilerError) : CompM Unit :=
  match fuel with
  | 0 => outOfFuelC
  | fuel + 1 =>
    match stmts with
    | [] => if errs.isEmpty then pure () else throwErr (.Multiple errs.reverse)
    | s :: rest => fun c =>
      match compile_stmt fuel s c with
      | .ok _ c' => compile_ast_go fuel rest errs c'
      | .err (.err e) c' => compile_ast_go fuel rest (e :: errs) c'
      | .err (.panicked m) c' => .err (.panicked m) c'

def compile_print (fuel : Nat) (expr : Expr) : CompM Unit :=
  match fuel with
  | 0 => outOfFuelC
  | fuel + 1 => do
    compile_expr fuel expr
    let _ ← add_instruction .Print
    pure ()

def compile_expression_statement (fuel : Nat) (expr : Expr) : CompM Unit :=
  match fuel with
  | 0 => outOfFuelC
  | fuel + 1 => do
    compile_expr fuel expr
    let _ ← add_instruction .Pop
    pure ()

def compile_block (fuel : Nat) (ast : List Stmt) : CompM Unit :=
  match fuel with
  | 0 => outOfFuelC
  | fuel + 1 => with_scope (compile_ast fuel ast)

def compile_var_declaration (fuel : Nat) (identifier : WithSpan Identifier)
    (expr : Option Expr) : CompM Unit :=
  match fuel with
  | 0 => outOfFuelC
  | fuel + 1 => do
    declare_variable identifier.value
    (match expr with
     | some e => compile_expr fuel e
     | none => compile_nil)
    define_variable identifier.value
    pure ()

def compile_if (fuel : Nat) (condition : Expr) (then_stmt : Stmt)
    (else_stmt : Option Stmt) : CompM Unit :=
  match fuel with
  | 0 => outOfFuelC
  | fuel + 1 => do
    compile_expr fuel condition
    let then_index ← add_instruction (.JumpIfFalse 0)
    let _ ← add_instruction .Pop
    compile_stmt fuel then_stmt
    match else_stmt with
    | some els => do
      let else_index ← add_instruction (.Jump 0)
      patch_instruction then_index
      let _ ← add_instruction .Pop
      compile_stmt fuel els
      patch_instruction else_index
    | none => patch_instruction then_index

def compile_while (fuel : Nat) (condition : Expr) (body : Stmt) : CompM Unit :=
  match fuel with
  | 0 => outOfFuelC
  | fuel + 1 => do
    let loop_start ← instruction_index
    compile_expr fuel condition
    let end_jump ← add_instruction (.JumpIfFalse 0)
    let _ ← add_instruction .Pop
    compile_stmt fuel body
    let loop_jump ← add_instruction (.Jump 0)
    patch_instruction_to loop_jump loop_start
    patch_instruction end_jump
    let _ ← add_instruction .Pop
    pure ()

def compile_function (fuel : Nat) (identifier : Identifier) (args : List Identifier)
    (block : List Stmt) : CompM Unit :=
  match fuel with
  | 0 => outOfFuelC
  | fuel + 1 => do
    declare_variable identifier
    if is_scoped (← getCompiler) then mark_local_initialized else pure ()
    let (chunk_index, upvalues) ← with_scoped_context .Function (do
      declare_and_define_params args
      compile_block fuel block
      let _ ← add_instruction .Nil
      let _ ← add_instruction .Return
      pure ())
    let constant ← add_constant (.Closure ⟨⟨identifier, chunk_index, args.length⟩, upvalues⟩)
    let _ ← add_instruction (.Closure constant)
    define_variable identifier
    pure ()

def compile_return (fuel : Nat) (expr : Option Expr) : CompM Unit :=
  match fuel with
  | 0 => outOfFuelC
  | fuel + 1 => do
    (match expr with
     | some e => compile_expr fuel e
     | none => compile_nil)
    let _ ← add_instruction .Return
    pure ()

def compile_expr (fuel : Nat) (expr : Expr) : CompM Unit :=
  match fuel with
  | 0 => outOfFuelC
  | fuel + 1 =>
    match expr with
    | .Number num => compile_number num
    | .String string => compile_string string
    | .Binary left op right => compile_binary fuel op left right
    | .Variable identifier => compile_variable identifier
    | .Nil => compile_nil
    | .Boolean boolean => compile_boolean boolean
    | .Assign identifier e => compile_assign fuel identifier e
    | .Logical left op right => compile_logical fuel op left right
    | .Call callee args => compile_call fuel callee args
    | .Grouping e => compile_expr fuel e
    | .Unary op e => compile_unary fuel op e
    | .Set obj identifier value => compiler_set fuel obj identifier value
    | .Get obj identifier => compiler_get fuel obj identifier
    | .This => compilePanic "not implemented"
    | .Super _ => compilePanic "not implemented"

def compiler_get (fuel : Nat) (expr : Expr) (identifier : String) : CompM Unit :=
  match fuel with
  | 0 => outOfFuelC
  | fuel + 1 => do
    compile_expr fuel expr
    let constant ← add_constant (.String identifier)
    let _ ← add_instruction (.GetProperty constant)
    pure ()

def compiler_set (fuel : Nat) (expr : Expr) (identifier : String) (value : Expr) : CompM Unit :=
  match fuel with
  | 0 => outOfFuelC
  | fuel + 1 => do
    compile_expr fuel expr
    compile_expr fuel value
    let constant ← add_constant (.String identifier)
    let _ ← add_instruction (.SetProperty constant)
    pure ()

def compile_unary (fuel : Nat) (op : UnaryOperator) (expr : Expr) : CompM Unit :=
  match fuel with
  | 0 => outOfFuelC
  | fuel + 1 => do
    compile_expr fuel expr
    match op with
    | .Minus => do
      let _ ← add_instruction .Negate
      pure ()
    | .Bang => do
      let _ ← add_instruction .Not
      pure ()

def compile_call (fuel : Nat) (identifier : Expr) (args : List Expr) : CompM Unit :=
  match fuel with
  | 0 => outOfFuelC
  | fuel + 1 => do
    compile_expr fuel identifier
    compile_args_list fuel args
    let _ ← add_instruction (.Call args.length)
    pure ()

def compile_args_list (fuel : Nat) (args : List Expr) : CompM Unit :=
  match fuel with
  | 0 => outOfFuelC
  | fuel + 1 =>
    match args with
    | [] => pure ()
    | arg :: rest => do
      compile_expr fuel arg
      compile_args_list fuel rest

def compile_logical (fuel : Nat) (op : LogicalOperator) (left right : Expr) : CompM Unit :=
  match fuel with
  | 0 => outOfFuelC
  | fuel + 1 =>
    match op with
    | .And => compile_logical_and fuel left right
    | .Or => compile_logical_or fuel left right

def compile_logical_or (fuel : Nat) (left right : Expr) : CompM Unit :=
  match fuel with
  | 0 => outOfFuelC
  | fuel + 1 => do
    compile_expr fuel left
    let else_jump ← add_instruction (.JumpIfFalse 0)
    let end_jump ← add_instruction (.Jump 0)
    patch_instruction else_jump
    let _ ← add_instruction .Pop
    compile_expr fuel right
    patch_instruction end_jump

def compile_logical_and (fuel : Nat) (left right : Expr) : CompM Unit :=
  match fuel with
  | 0 => outOfFuelC
  | fuel + 1 => do
    compile_expr fuel left
    let end_jump ← add_instruction (.JumpIfFalse 0)
    let _ ← add_instruction .Pop
    compile_expr fuel right
    patch_instruction end_jump

def compile_assign (fuel : Nat) (identifier : String) (expr : Expr) : CompM Unit :=
  match fuel with
  | 0 => outOfFuelC
  | fuel + 1 => do
    compile_expr fuel expr
    match ← resolve_local identifier with
    | some slot => do
      let _ ← add_instruction (.SetLocal slot)
      pure ()
    | none =>
      match ← resolve_upvalue identifier with
      | some upvalue => do
        let _ ← add_instruction (.SetUpvalue upvalue)
        pure ()
      | none => do
        let constant ← add_constant (.String identifier)
        let _ ← add_instruction (.SetGlobal constant)
        pure ()

def compile_binary (fuel : Nat) (op : BinaryOperator) (left right : Expr) : CompM Unit :=
  match fuel with
  | 0 => outOfFuelC
  | fuel + 1 => do
    compile_expr fuel left
    compile_expr fuel right
    match op with
    | .Plus => do
      let _ ← add_instruction .Add
      pure ()
    | .Minus => do
      let _ ← add_instruction .Subtract
      pure ()
    | .Less => do
      let _ ← add_instruction .Less
      pure ()
    | .LessEqual => do
      let _ ← add_instruction .Greater
      let _ ← add_instruction .Not
      pure ()
    | .Star => do
      let _ ← add_instruction .Multiply
      pure ()
    | .EqualEqual => do
      let _ ← add_instruction .Equal
      pure ()
    | .BangEqual => do
      let _ ← add_instruction .Equal
      let _ ← add_instruction .Not
      pure ()
    | .Greater => do
      let _ ← add_instruction .Greater
      pure ()
    | .GreaterEqual => do
      let _ ← add_instruction .Less
      let _ ← add_instruction .Not
      pure ()
    | .Slash => do
      let _ ← add_instruction .Divide
      pure ()

end

/-! ## Compile entry point (`src/src/bettercompiler/mod.rs`) -/

/-- The `compile` entry point at a given fuel: a top-level context with slot 0
reserved, the program, and the implicit final `Nil; Return`. -/
def compile_with_fuel (fuel : Nat) (ast : Ast) : Except Failure Module :=
  match (with_context .TopLevel (do
      add_local ""
      compile_ast fuel ast
      let _ ← add_instruction .Nil
      let _ ← add_instruction .Return
      pure ())) newCompiler with
  | .ok _ c => .ok (into_module c)
  | .err f _ => .error f

mutual

/-- Size of an expression, bounding the recursion depth of its compilation. -/
def expr_size : Expr → Nat
  | .Number _ => 1
  | .String _ => 1
  | .Boolean _ => 1
  | .Nil => 1
  | .Variable _ => 1
  | .Assign _ e => 1 + expr_size e
  | .Unary _ e => 1 + expr_size e
  | .Binary l _ r => 1 + expr_size l + expr_size r
  | .Logical l _ r => 1 + expr_size l + expr_size r
  | .Grouping e => 1 + expr_size e
  | .Call callee args => 1 + expr_size callee + expr_list_size args
  | .Get obj _ => 1 + expr_size obj
  | .Set obj _ v => 1 + expr_size obj + expr_size v
  | .This => 1
  | .Super _ => 1

def expr_list_size : List Expr → Nat
  | [] => 1
  | e :: rest => 1 + expr_size e + expr_list_size rest

/-- Size of a statement, bounding the recursion depth of its compilation. -/
def stmt_size : Stmt → Nat
  | .Expression e => 1 + expr_size e
  | .Print e => 1 + expr_size e
  | .Var _ init => 1 + (match init with | some e => expr_size e | none => 1)
  | .Block stmts => 1 + stmt_list_size stmts
  | .If cond t e =>
    1 + expr_size cond + stmt_size t + (match e with | some s => stmt_size s | none => 1)
  | .While cond body => 1 + expr_size cond + stmt_size body
  | .Function _ _ body => 1 + stmt_list_size body
  | .Return e => 1 + (match e with | some x => expr_size x | none => 1)
  | .Class _ _ methods => 1 + stmt_list_size methods

def stmt_list_size : List Stmt → Nat
  | [] => 1
  | s :: rest => 1 + stmt_size s + stmt_list_size rest

end

/-- The `compile` entry point of `mod.rs`; the fuel bound is generous (the
source recursion depth is bounded by the size of the tree). -/
def compile (ast : Ast) : Except Failure Module :=
  compile_with_fuel (16 * stmt_list_size ast + 16) ast

/-! ## Specification-side descriptions used by the claims -/

/-- Modelled from the spec: the opcode sequence each binary operator emits
(section 4.5 Binary, with the three derived comparison forms). -/
def binary_op_instructions : BinaryOperator → List Instruction
  | .Plus => [.Add]
  | .Minus => [.Subtract]
  | .Star => [.Multiply]
  | .Slash => [.Divide]
  | .EqualEqual => [.Equal]
  | .BangEqual => [.Equal, .Not]
  | .Less => [.Less]
  | .LessEqual => [.Greater, .Not]
  | .Greater => [.Greater]
  | .GreaterEqual => [.Less, .Not]

/-- Append instructions to the current chunk (no-op without a context);
`add_instruction` on the success path is exactly one such append. -/
def append_instructions (is : List Instruction) (c : Compiler) : Compiler :=
  match c.contexts with
  | [] => c
  | ctx :: rest => ⟨c.chunks, { ctx with chunk := ctx.chunk ++ is } :: rest⟩

/-- Overwrite one instruction of the current chunk (no-op without a context);
a successful patch is exactly one such write. -/
def set_instruction (index : Nat) (i : Instruction) (c : Compiler) : Compiler :=
  match c.contexts with
  | [] => c
  | ctx :: rest => ⟨c.chunks, { ctx with chunk := ctx.chunk.set index i } :: rest⟩

/-- Modelled from the spec: the error-collection contract of `compile_ast`
(section 4.5): every statement is compiled in order, threading the compiler
state through failures, and the `Err` results are collected in statement
order.  `none` when a statement panics (panics unwind instead). -/
def stmt_outcomes (fuel : Nat) (stmts : List Stmt) (c : Compiler) :
    Option (Compiler × List CompilerError) :=
  match fuel with
  | 0 => none
  | fuel + 1 =>
    match stmts with
    | [] => some (c, [])
    | s :: rest =>
      match compile_stmt fuel s c with
      | .ok _ c' =>
        match stmt_outcomes fuel rest c' with
        | some (c'', es) => some (c'', es)
        | none => none
      | .err (.err e) c' =>
        match stmt_outcomes fuel rest c' with
        | some (c'', es) => some (c'', e :: es)
        | none => none
      | .err (.panicked _) _ => none

/-- The compiler state a computation ended in, whether it returned normally
or failed (Rust mutates in place either way). -/
def resState {α : Type} (r : CRes α) : Compiler :=
  match r with
  | .ok _ c => c
  | .err _ c => c

/-- Emission discipline of one compile step relative to a base point `n` of
the current chunk: the context stack keeps its height, enclosing contexts'
chunks are untouched, the current chunk below `n` is untouched, and the
current chunk never shrinks.  Compile steps only append to the current chunk
and patch their own forward jumps (all at indices at or past their base). -/
def ExtFrom (n : Nat) (c c' : Compiler) : Prop :=
  c'.contexts.length = c.contexts.length ∧
  (c'.contexts.map Context.chunk).tail = (c.contexts.map Context.chunk).tail ∧
  (current_chunk c').take n = (current_chunk c).take n ∧
  (current_chunk c).length ≤ (current_chunk c').length

/-- Emission discipline relative to the step's own starting point: everything
already emitted is preserved. -/
def Ext (c c' : Compiler) : Prop := ExtFrom (current_chunk c).length c c'

/-- Every finished chunk of the module under construction ends with a
`Return` instruction. -/
def Good (c : Compiler) : Prop :=
  ∀ ch ∈ c.chunks, ch.instructions.getLast? = some Instruction.Return

/-- A compiler computation whose every successful run respects the emission
discipline `Ext`. -/
def ExtOk {α : Type} (f : CompM α) : Prop :=
  ∀ (c : Compiler) (a : α) (c' : Compiler), f c = .ok a c' → Ext c c'

/-- Emission discipline for every compile function at a given fuel. -/
def ExtStep (fuel : Nat) : Prop :=
  (∀ s, ExtOk (compile_stmt fuel s)) ∧
  (∀ ss, ExtOk (compile_ast fuel ss)) ∧
  (∀ ss acc, ExtOk (compile_ast_go fuel ss acc)) ∧
  (∀ e, ExtOk (compile_expr fuel e)) ∧
  (∀ e, ExtOk (compile_print fuel e)) ∧
  (∀ e, ExtOk (compile_expression_statement fuel e)) ∧
  (∀ ss, ExtOk (compile_block fuel ss)) ∧
  (∀ idf e, ExtOk (compile_var_declaration fuel idf e)) ∧
  (∀ cnd t e, ExtOk (compile_if fuel cnd t e)) ∧
  (∀ cnd b, ExtOk (compile_while fuel cnd b)) ∧
  (∀ idf args blk, ExtOk (compile_function fuel idf args blk)) ∧
  (∀ e, ExtOk (compile_return fuel e)) ∧
  (∀ e idf, ExtOk (compiler_get fuel e idf)) ∧
  (∀ e idf v, ExtOk (compiler_set fuel e idf v)) ∧
  (∀ op e, ExtOk (compile_unary fuel op e)) ∧
  (∀ f args, ExtOk (compile_call fuel f args)) ∧
  (∀ args, ExtOk (compile_args_list fuel args)) ∧
  (∀ op l r, ExtOk (compile_logical fuel op l r)) ∧
  (∀ l r, ExtOk (compile_logical_or fuel l r)) ∧
  (∀ l r, ExtOk (compile_logical_and fuel l r)) ∧
  (∀ idf e, ExtOk (compile_assign fuel idf e)) ∧
  (∀ op l r, ExtOk (compile_binary fuel op l r))

/-- A chunk ending with the implicit `Nil`, `Return` epilogue emitted when
its context was finished. -/
def ends_nil_return (ch : Chunk) : Prop :=
  ∃ pre, ch.instructions = pre ++ [Instruction.Nil, Instruction.Return]

/-- Every finished chunk of the module under construction ends with the
`Nil`, `Return` epilogue — in particular with `Return`. -/
def GoodNR (c : Compiler) : Prop := ∀ ch ∈ c.chunks, ends_nil_return ch

/-- A compiler computation that preserves `GoodNR` on every outcome:
ordinary error returns and panics included, since Rust mutates the compiler
in place either way and `compile_ast` keeps compiling after errors. -/
def GoodPres {α : Type} (f : CompM α) : Prop :=
  ∀ c, GoodNR c → GoodNR (resState (f c))

/-- Chunk-list preservation for every compile function at a given fuel. -/
def GoodStep (fuel : Nat) : Prop :=
  (∀ s, GoodPres (compile_stmt fuel s)) ∧
  (∀ ss, GoodPres (compile_ast fuel ss)) ∧
  (∀ ss acc, GoodPres (compile_ast_go fuel ss acc)) ∧
  (∀ e, GoodPres (compile_expr fuel e)) ∧
  (∀ e, GoodPres (compile_print fuel e)) ∧
  (∀ e, GoodPres (compile_expression_statement fuel e)) ∧
  (∀ ss, GoodPres (compile_block fuel ss)) ∧
  (∀ idf e, GoodPres (compile_var_declaration fuel idf e)) ∧
  (∀ cnd t e, GoodPres (compile_if fuel cnd t e)) ∧
  (∀ cnd b, GoodPres (compile_while fuel cnd b)) ∧
  (∀ idf args blk, GoodPres (compile_function fuel idf args blk)) ∧
  (∀ e, GoodPres (compile_return fuel e)) ∧
  (∀ e idf, GoodPres (compiler_get fuel e idf)) ∧
  (∀ e idf v, GoodPres (compiler_set fuel e idf v)) ∧
  (∀ op e, GoodPres (compile_unary fuel op e)) ∧
  (∀ f args, GoodPres (compile_call fuel f args)) ∧
  (∀ args, GoodPres (compile_args_list fuel args)) ∧
  (∀ op l r, GoodPres (compile_logical fuel op l r)) ∧
  (∀ l r, GoodPres (compile_logical_or fuel l r)) ∧
  (∀ l r, GoodPres (compile_logical_and fuel l r)) ∧
  (∀ idf e, GoodPres (compile_assign fuel idf e)) ∧
  (∀ op l r, GoodPres (compile_binary fuel op l r))


/-! ## Helper lemmas -/

theorem except_bind_ok_iff {ε α β : Type} (m : Except ε α) (f : α → Except ε β) (b : β) :
    (m >>= f = .ok b) ↔ ∃ a, m = .ok a ∧ f a = .ok b := by
  cases m with
  | ok a =>
    constructor
    · intro h; exact ⟨a, rfl, h⟩
    · rintro ⟨a', ha, hf⟩
      cases ha
      exact hf
  | error e =>
    constructor
    · intro h; exact Except.noConfusion h
    · rintro ⟨a, ha, _⟩; exact Except.noConfusion ha

theorem pure_ok_iff {ε α : Type} (a b : α) : (pure a : Except ε α) = .ok b ↔ a = b := by
  constructor
  · intro h; exact Except.ok.inj h
  · intro h; rw [h]; rfl

/-! ## Claims about the lexer -/

/-- C8: the lexer scans a number as digits optionally followed by a dot and
digits, with lookahead past the dot — a dot not followed by a digit is left
in the stream (and so is emitted as a separate `Dot` token); concretely,
`tokenize "99."` is `[Number 99, Dot]` and `tokenize "12.34"` is
`[Number 12.34]`. -/
theorem claim8_number_lexing :
    (∀ (x c : Char) (rest : List Char), x.isDigit = true → c.isDigit = false →
      match_token x ('.' :: c :: rest) =
        .ok (some (.Number ((digitsToNat [x] : Nat) : Rat)), '.' :: c :: rest)) ∧
    tokenize "99." = .ok [.Number 99, .Dot] ∧
    tokenize "12.34" = .ok [.Number (1234 / 100)] := by
  refine ⟨?_, ?_, ?_⟩
  · intro x c rest hx hc
    unfold match_token
    split
    all_goals try simp_all
    simp [hx, number, consume_while, hc]
  · have h : tokenize "99." = .ok [.Number ((99 : Nat) : Rat), .Dot] := rfl
    rw [h]; norm_num
  · have h : tokenize "12.34" =
        .ok [.Number (((1234 : Nat) : Rat) / (10 : Rat) ^ (2 : Nat))] := rfl
    rw [h]; norm_num

theorem claim8_number_lexing_witness :
    match_token '9' ['.', '='] =
      .ok (some (.Number ((digitsToNat ['9'] : Nat) : Rat)), ['.', '=']) :=
  claim8_number_lexing.1 '9' '=' [] (by decide) (by decide)

/-- C9: on an input whose double-quoted string never closes, the source
lexer does not return an error value at all — it aborts the process through
`panic!("Unterminated string")` in `match_token` (`tokenizer.rs`), modelled
as the `panicked` outcome, which is distinct from every ordinary error
return. -/
theorem claim9_unterminated_string_panics :
    tokenize "\"abc" = .error (.panicked "Unterminated string") := rfl

/-! ## Claims about the parser -/

/-- C1: every successful `parse_for_statement` yields the while-based
desugared shape (`Stmt` has no for-node at all), and the two concrete
programs of the spec parse to exactly the ASTs it lists, including the
omitted wrapper blocks and the `Boolean(true)` condition for `for(;;){}`. -/
theorem claim1_for_desugars :
    (∀ (fuel : Nat) (ts : List TokenS) (s : Stmt) (rest : List TokenS),
      parse_for_statement fuel ts = .ok (s, rest) →
      ∃ init cond incr body, s = for_desugar init cond incr body) ∧
    parse_str "for(nil;nil;nil){}" =
      .ok [.Block [.Expression .Nil, .While .Nil (.Block [.Block [], .Expression .Nil])]] ∧
    parse_str "for(;;){}" = .ok [.While (.Boolean true) (.Block [])] := by
  refine ⟨?_, rfl, rfl⟩
  intro fuel ts s rest h
  cases fuel with
  | zero => exact absurd h (by simp [parse_for_statement, fuelError])
  | succ fuel =>
    rw [parse_for_statement] at h
    simp only [except_bind_ok_iff, pure_ok_iff, Prod.exists, exists_eq_left, exists_eq_left',
      Except.ok.injEq, Prod.mk.injEq] at h
    repeat' first
      | (obtain ⟨_, _, _, h⟩ := h)
      | (obtain ⟨_, _, h⟩ := h)
      | (split at h)
      | (simp only [except_bind_ok_iff, pure_ok_iff, Prod.exists, exists_eq_left,
          exists_eq_left', Except.ok.injEq, Prod.mk.injEq] at h)
    all_goals subst_eqs
    all_goals first
      | exact ⟨none, _, none, _, rfl⟩
      | exact ⟨none, _, some _, _, rfl⟩
      | exact ⟨some _, _, none, _, rfl⟩
      | exact ⟨some _, _, some _, _, rfl⟩

theorem claim1_for_desugars_witness :
    ∃ init cond incr body,
      Stmt.While (.Boolean true) (.Block []) = for_desugar init cond incr body :=
  claim1_for_desugars.1 64
    (with_dummy_spans [.For, .LeftParen, .Semicolon, .Semicolon, .RightParen,
      .LeftBrace, .RightBrace])
    (Stmt.While (.Boolean true) (.Block [])) [] rfl

/-! ## Claims about the compiler -/

/-- C10: compiling an `Expr.This` or `Expr.Super` expression panics through
`unimplemented!` from any compiler state — the `Err(CompilerError)` return
path is never taken for these forms — and the panic unwinds through the
whole `compile` entry point instead of being collected as an error. -/
theorem claim10_this_super_panic :
    (∀ (fuel : Nat) (c : Compiler),
      compile_expr (fuel + 1) Expr.This c = .err (.panicked "not implemented") c) ∧
    (∀ (fuel : Nat) (c : Compiler) (name : Identifier),
      compile_expr (fuel + 1) (Expr.Super name) c = .err (.panicked "not implemented") c) ∧
    compile [Stmt.Expression Expr.This] = .error (.panicked "not implemented") :=
  ⟨fun _ _ => rfl, fun _ _ _ => rfl, rfl⟩

theorem compM_bind_def {α β : Type} (m : CompM α) (f : α → CompM β) :
    m >>= f = bindC m f := rfl

theorem compM_pure_def {α : Type} (a : α) : (pure a : CompM α) = pureC a := rfl

/-- C4: a binary expression compiles to left operand, then right operand,
then the operator's opcodes, where `!=`, `<=`, `>=` emit exactly
`Equal,Not`, `Greater,Not`, `Less,Not`. -/
theorem claim4_binary_emission :
    (∀ (fuel : Nat) (op : BinaryOperator) (l r : Expr) (c c1 c2 : Compiler),
      compile_expr fuel l c = .ok () c1 →
      compile_expr fuel r c1 = .ok () c2 →
      c2.contexts ≠ [] →
      compile_binary (fuel + 1) op l r c =
        .ok () (append_instructions (binary_op_instructions op) c2) ∧
      current_chunk (append_instructions (binary_op_instructions op) c2) =
        current_chunk c2 ++ binary_op_instructions op) ∧
    binary_op_instructions .BangEqual = [.Equal, .Not] ∧
    binary_op_instructions .LessEqual = [.Greater, .Not] ∧
    binary_op_instructions .GreaterEqual = [.Less, .Not] := by
  refine ⟨?_, rfl, rfl, rfl⟩
  intro fuel op l r c c1 c2 h1 h2 hne
  rcases hc : c2.contexts with _ | ⟨ctx, rest⟩
  · exact absurd hc hne
  · cases op <;>
      simp [compile_binary, compM_bind_def, compM_pure_def, bindC, pureC, h1, h2,
        add_instruction, append_instructions, binary_op_instructions, current_chunk, hc]

theorem claim4_binary_emission_witness :
    compile_binary 2 .BangEqual .Nil .Nil ⟨[], [⟨.TopLevel, [], [], [], 0, []⟩]⟩ =
      .ok () (append_instructions [.Equal, .Not]
        ⟨[], [⟨.TopLevel, [.Nil, .Nil], [], [], 0, []⟩]⟩) ∧
    current_chunk (append_instructions [.Equal, .Not]
        ⟨[], [⟨.TopLevel, [.Nil, .Nil], [], [], 0, []⟩]⟩) =
      current_chunk (⟨[], [⟨.TopLevel, [.Nil, .Nil], [], [], 0, []⟩]⟩ : Compiler) ++
        [.Equal, .Not] := by
  have h := claim4_binary_emission.1 1 .BangEqual .Nil .Nil
    ⟨[], [⟨.TopLevel, [], [], [], 0, []⟩]⟩
    ⟨[], [⟨.TopLevel, [.Nil], [], [], 0, []⟩]⟩
    ⟨[], [⟨.TopLevel, [.Nil, .Nil], [], [], 0, []⟩]⟩
    rfl rfl (by simp)
  simpa [binary_op_instructions] using h

/-- C5: in a scoped context, a var declaration appends its local with
`depth = None` before compiling the initializer and only marks it
initialized afterwards, so `var x = x;` fails with the local-not-initialized
error: the initializer's lookup of `x` finds the uninitialized local (the
final state still carries `x` with `depth = None`). -/
theorem claim5_var_self_reference :
    ∀ (fuel : Nat) (c : Compiler) (sp : Span),
      is_scoped c = true →
      has_local_in_current_scope "x" c = false →
      ∃ ctx rest, c.contexts = ctx :: rest ∧
        compile_stmt (fuel + 3) (.Var ⟨"x", sp⟩ (some (.Variable "x"))) c =
          .err (.err (.LocalNotInitialized "x"))
            ⟨c.chunks, { ctx with locals := ctx.locals ++ [⟨"x", none, false⟩] } :: rest⟩ := by
  intro fuel c sp hscoped hnew
  rcases hc : c.contexts with _ | ⟨ctx, rest⟩
  · rw [is_scoped, hc] at hscoped
    exact absurd hscoped (by simp)
  · refine ⟨ctx, rest, rfl, ?_⟩
    have hvar : ∀ cc : Compiler, cc.contexts =
        ({ ctx with locals := ctx.locals ++ [⟨"x", none, false⟩] } :: rest) →
        compile_expr (fuel + 1) (.Variable "x") cc =
          .err (.err (.LocalNotInitialized "x")) cc := by
      intro cc hcc
      show compile_variable "x" cc = _
      rw [compile_variable]
      simp [compM_bind_def, bindC, resolve_local, resolve_local_ctx, resolve_local_scan,
        List.reverse_append, hcc]
    show compile_var_declaration (fuel + 2) ⟨"x", sp⟩ (some (.Variable "x")) c = _
    rw [compile_var_declaration]
    simp only [compM_bind_def, compM_pure_def, bindC, pureC, declare_variable, hscoped,
      hnew, if_true, if_false, Bool.false_eq_true, add_local, hc]
    rw [hvar _ rfl]

theorem claim5_var_self_reference_witness :
    ∃ ctx rest,
      (⟨[], [⟨.Function, [], [], [], 1, []⟩]⟩ : Compiler).contexts = ctx :: rest ∧
        compile_stmt (0 + 3) (.Var ⟨"x", ⟨⟨1, 1⟩, ⟨1, 1⟩⟩⟩ (some (.Variable "x")))
            ⟨[], [⟨.Function, [], [], [], 1, []⟩]⟩ =
          .err (.err (.LocalNotInitialized "x"))
            ⟨[], { ctx with locals := ctx.locals ++ [⟨"x", none, false⟩] } :: rest⟩ :=
  claim5_var_self_reference 0 ⟨[], [⟨.Function, [], [], [], 1, []⟩]⟩ ⟨⟨1, 1⟩, ⟨1, 1⟩⟩ rfl rfl

/-- The error-collection behavior of `compile_ast_go`: whenever no statement
panics, the accumulator threads through every statement and the collected
errors are exactly the per-statement errors in order. -/
theorem compile_ast_go_collects :
    ∀ (fuel : Nat) (stmts : List Stmt) (acc : List CompilerError) (c c' : Compiler)
      (es : List CompilerError),
      stmt_outcomes fuel stmts c = some (c', es) →
      compile_ast_go fuel stmts acc c =
        if (acc.reverse ++ es).isEmpty then .ok () c'
        else .err (.err (.Multiple (acc.reverse ++ es))) c' := by
  intro fuel
  induction fuel with
  | zero => intro stmts acc c c' es h; exact absurd h (by simp [stmt_outcomes])
  | succ fuel ih =>
    intro stmts acc c c' es h
    cases stmts with
    | nil =>
      rw [stmt_outcomes] at h
      obtain ⟨rfl, rfl⟩ : c = c' ∧ [] = es := by
        simpa using h
      rw [compile_ast_go]
      rcases acc with _ | ⟨e, acc'⟩
      · simp [compM_pure_def, pureC]
      · simp [throwErr]
    | cons s rest =>
      rw [stmt_outcomes] at h
      rw [compile_ast_go]
      rcases hs : compile_stmt fuel s c with ⟨a, c1⟩ | ⟨f, c1⟩
      · simp only [hs] at h ⊢
        rcases hrest : stmt_outcomes fuel rest c1 with _ | ⟨c'', es0⟩ <;>
          simp only [hrest] at h
        · exact absurd h (by simp)
        · obtain ⟨rfl, rfl⟩ : c'' = c' ∧ es0 = es := by simpa using h
          exact ih rest acc c1 c'' es0 hrest
      · rcases f with e | m
        · simp only [hs] at h ⊢
          rcases hrest : stmt_outcomes fuel rest c1 with _ | ⟨c'', es0⟩ <;>
            simp only [hrest] at h
          · exact absurd h (by simp)
          · obtain ⟨rfl, rfl⟩ : c'' = c' ∧ e :: es0 = es := by simpa using h
            rw [ih rest (e :: acc) c1 c'' es0 hrest]
            simp
        · simp only [hs] at h
          exact absurd h (by simp)

/-- C6: `compile_ast` compiles every statement even after earlier statements
fail, returning `Ok(())` when none fails and otherwise
`Err(Multiple(errors))` with exactly the per-statement errors in statement
order; the final compiler state is the one threaded through all statements,
so it never stops at the first failure.  (A Rust panic — `unimplemented!` —
unwinds instead; `stmt_outcomes` is `none` in that case.) -/
theorem claim6_error_collection :
    ∀ (fuel : Nat) (stmts : List Stmt) (c c' : Compiler) (es : List CompilerError),
      stmt_outcomes fuel stmts c = some (c', es) →
      compile_ast (fuel + 1) stmts c =
        if es.isEmpty then .ok () c' else .err (.err (.Multiple es)) c' := by
  intro fuel stmts c c' es h
  rw [compile_ast]
  simpa using compile_ast_go_collects fuel stmts [] c c' es h

theorem claim6_error_collection_witness :
    compile_ast 6
        [.Var ⟨"x", ⟨⟨1, 1⟩, ⟨1, 1⟩⟩⟩ (some (.Variable "x")),
         .Var ⟨"y", ⟨⟨1, 1⟩, ⟨1, 1⟩⟩⟩ (some (.Variable "y"))]
        ⟨[], [⟨.Function, [], [], [], 1, []⟩]⟩ =
      .err (.err (.Multiple [.LocalNotInitialized "x", .LocalNotInitialized "y"]))
        ⟨[], [⟨.Function, [], [], [⟨"x", none, false⟩, ⟨"y", none, false⟩], 1, []⟩]⟩ := by
  have h := claim6_error_collection 5
    [.Var ⟨"x", ⟨⟨1, 1⟩, ⟨1, 1⟩⟩⟩ (some (.Variable "x")),
     .Var ⟨"y", ⟨⟨1, 1⟩, ⟨1, 1⟩⟩⟩ (some (.Variable "y"))]
    ⟨[], [⟨.Function, [], [], [], 1, []⟩]⟩
    ⟨[], [⟨.Function, [], [], [⟨"x", none, false⟩, ⟨"y", none, false⟩], 1, []⟩]⟩
    [.LocalNotInitialized "x", .LocalNotInitialized "y"] rfl
  simpa using h

/-! ## Emission-discipline lemmas

The compile functions only append to the current chunk and patch forward
jumps at indices at or past their own base; enclosing contexts' chunks are
never written.  These lemmas make that precise (`ExtFrom`/`Ext`), first for
the primitive compiler operations, then (by induction on fuel) for every
statement and expression compiler. -/

theorem take_set_of_le {α : Type} (l : List α) (i n : Nat) (a : α) (h : n ≤ i) :
    (l.set i a).take n = l.take n := by
  apply List.ext_getElem?
  intro j
  rcases Nat.lt_or_ge j n with hj | hj
  · rw [List.getElem?_take, List.getElem?_take, if_pos hj, if_pos hj, List.getElem?_set_ne]
    omega
  · rw [List.getElem?_eq_none, List.getElem?_eq_none] <;> simp [List.length_take] <;> omega

theorem take_pres_getElem {α : Type} (l l' : List α) (n : Nat)
    (h : l'.take n = l.take n) (i : Nat) (hi : i < n) : l'[i]? = l[i]? := by
  have := congrArg (fun t => t[i]?) h
  simpa [List.getElem?_take, hi] using this

theorem extFrom_refl (n : Nat) (c : Compiler) : ExtFrom n c c :=
  ⟨rfl, rfl, rfl, Nat.le_refl _⟩

theorem extFrom_trans {n : Nat} {c1 c2 c3 : Compiler}
    (h1 : ExtFrom n c1 c2) (h2 : ExtFrom n c2 c3) : ExtFrom n c1 c3 :=
  ⟨h2.1.trans h1.1, h2.2.1.trans h1.2.1, h2.2.2.1.trans h1.2.2.1,
    h1.2.2.2.trans h2.2.2.2⟩

theorem extFrom_mono {m n : Nat} {c c' : Compiler} (h : ExtFrom n c c') (hm : m ≤ n) :
    ExtFrom m c c' := by
  refine ⟨h.1, h.2.1, ?_, h.2.2.2⟩
  have := congrArg (List.take m) h.2.2.1
  simpa [List.take_take, Nat.min_eq_left hm] using this

theorem ext_to_from {n : Nat} {c c' : Compiler} (h : Ext c c')
    (hn : n ≤ (current_chunk c).length) : ExtFrom n c c' :=
  extFrom_mono h hn

theorem current_chunk_of_map_eq {c c' : Compiler}
    (h : c'.contexts.map Context.chunk = c.contexts.map Context.chunk) :
    current_chunk c' = current_chunk c := by
  rcases hc : c.contexts with _ | ⟨ctx, rest⟩ <;>
    rcases hc' : c'.contexts with _ | ⟨ctx', rest'⟩ <;>
    rw [hc, hc'] at h <;> simp_all [current_chunk]

theorem ext_of_map_chunk_eq {c c' : Compiler}
    (h : c'.contexts.map Context.chunk = c.contexts.map Context.chunk) : Ext c c' := by
  have hcur := current_chunk_of_map_eq h
  refine ⟨?_, congrArg List.tail h, by rw [hcur], Nat.le_of_eq (by rw [hcur])⟩
  have := congrArg List.length h
  simpa using this

theorem bindC_ok_iff {α β : Type} (m : CompM α) (f : α → CompM β) (c : Compiler)
    (b : β) (c' : Compiler) :
    bindC m f c = .ok b c' ↔ ∃ a c1, m c = .ok a c1 ∧ f a c1 = .ok b c' := by
  cases hm : m c with
  | ok a c1 =>
    constructor
    · intro h
      exact ⟨a, c1, rfl, by simpa [bindC, hm] using h⟩
    · rintro ⟨a1, c11, hm1, hf⟩
      injection hm1 with h1 h2
      subst h1; subst h2
      simpa [bindC, hm] using hf
  | err e c1 =>
    constructor
    · intro h
      exact absurd h (by simp [bindC, hm])
    · rintro ⟨a1, c11, hm1, hf⟩
      exact CRes.noConfusion hm1

theorem pureC_ok_iff {α : Type} (a : α) (c : Compiler) (b : α) (c' : Compiler) :
    pureC a c = .ok b c' ↔ a = b ∧ c = c' := by
  simp [pureC, eq_comm]

theorem add_instruction_ok_iff (i : Instruction) (c : Compiler) (n : Nat) (c' : Compiler) :
    add_instruction i c = .ok n c' ↔
      ∃ ctx rest, c.contexts = ctx :: rest ∧ n = ctx.chunk.length ∧
        c' = ⟨c.chunks, { ctx with chunk := ctx.chunk ++ [i] } :: rest⟩ := by
  rcases hc : c.contexts with _ | ⟨ctx, rest⟩
  · constructor
    · intro h
      rw [add_instruction, hc] at h
      exact absurd h (by simp)
    · rintro ⟨ctx1, rest1, hcc, -, -⟩
      exact List.noConfusion hcc
  · constructor
    · intro h
      rw [add_instruction, hc] at h
      injection h with h1 h2
      exact ⟨ctx, rest, rfl, h1.symm, h2.symm⟩
    · rintro ⟨ctx1, rest1, hcc, rfl, rfl⟩
      injection hcc with e1 e2
      subst e1; subst e2
      rw [add_instruction, hc]

theorem ext_add_instruction {i : Instruction} {c : Compiler} {n : Nat} {c' : Compiler}
    (h : add_instruction i c = .ok n c') :
    Ext c c' ∧ n = (current_chunk c).length ∧
      current_chunk c' = current_chunk c ++ [i] ∧ c'.chunks = c.chunks := by
  obtain ⟨ctx, rest, hc, hn, rfl⟩ := (add_instruction_ok_iff i c n c').mp h
  have hcur : current_chunk c = ctx.chunk := by rw [current_chunk, hc]
  refine ⟨⟨?_, ?_, ?_, ?_⟩, ?_, ?_, rfl⟩ <;>
    simp [current_chunk, hc, hcur, hn, List.take_left]

theorem ext_add_constant {k : Constant} {c : Compiler} {n : Nat} {c' : Compiler}
    (h : add_constant k c = .ok n c') :
    Ext c c' ∧ current_chunk c' = current_chunk c ∧ c'.chunks = c.chunks ∧
      c'.contexts.map Context.chunk = c.contexts.map Context.chunk := by
  rcases hc : c.contexts with _ | ⟨ctx, rest⟩ <;> rw [add_constant, hc] at h
  · exact absurd h (by simp)
  · injection h with h1 h2
    subst h2
    exact ⟨ext_of_map_chunk_eq (by simp [hc]), current_chunk_of_map_eq (by simp [hc]),
      rfl, by simp [hc]⟩

theorem ext_add_local {name : String} {c : Compiler} {a : Unit} {c' : Compiler}
    (h : add_local name c = .ok a c') :
    Ext c c' ∧ current_chunk c' = current_chunk c ∧ c'.chunks = c.chunks ∧
      c'.contexts.map Context.chunk = c.contexts.map Context.chunk := by
  rcases hc : c.contexts with _ | ⟨ctx, rest⟩ <;> rw [add_local, hc] at h
  · exact absurd h (by simp)
  · injection h with h1 h2
    subst h2
    exact ⟨ext_of_map_chunk_eq (by simp [hc]), current_chunk_of_map_eq (by simp [hc]),
      rfl, by simp [hc]⟩

theorem ext_mark_local_initialized {c : Compiler} {a : Unit} {c' : Compiler}
    (h : mark_local_initialized c = .ok a c') :
    Ext c c' ∧ current_chunk c' = current_chunk c ∧ c'.chunks = c.chunks ∧
      c'.contexts.map Context.chunk = c.contexts.map Context.chunk := by
  rcases hc : c.contexts with _ | ⟨ctx, rest⟩ <;> rw [mark_local_initialized, hc] at h
  · exact absurd h (by simp)
  · dsimp only at h
    rcases hl : ctx.locals.getLast? with _ | ⟨l⟩ <;> rw [hl] at h
    · injection h with h1 h2
      subst h2
      exact ⟨extFrom_refl _ _, rfl, rfl, by rw [hc]⟩
    · injection h with h1 h2
      subst h2
      exact ⟨ext_of_map_chunk_eq (by simp [hc]), current_chunk_of_map_eq (by simp [hc]),
        rfl, by simp [hc]⟩

theorem ext_push_scope {c : Compiler} {a : Unit} {c' : Compiler}
    (h : push_scope c = .ok a c') :
    Ext c c' ∧ current_chunk c' = current_chunk c ∧ c'.chunks = c.chunks ∧
      c'.contexts.map Context.chunk = c.contexts.map Context.chunk := by
  rcases hc : c.contexts with _ | ⟨ctx, rest⟩ <;> rw [push_scope, hc] at h
  · injection h with h1 h2
    subst h2
    exact ⟨extFrom_refl _ _, rfl, rfl, by rw [hc]⟩
  · injection h with h1 h2
    subst h2
    exact ⟨ext_of_map_chunk_eq (by simp [hc]), current_chunk_of_map_eq (by simp [hc]),
      rfl, by simp [hc]⟩

theorem ext_pop_scope {c : Compiler} {a : Unit} {c' : Compiler}
    (h : pop_scope c = .ok a c') : Ext c c' ∧ c'.chunks = c.chunks := by
  rcases hc : c.contexts with _ | ⟨ctx, rest⟩ <;> rw [pop_scope, hc] at h
  · injection h with h1 h2
    subst h2
    exact ⟨extFrom_refl _ _, rfl⟩
  · injection h with h1 h2
    subst h2
    have hcur : current_chunk c = ctx.chunk := by rw [current_chunk, hc]
    refine ⟨⟨?_, ?_, ?_, ?_⟩, rfl⟩ <;> simp [current_chunk, hc, hcur, List.take_left]

theorem patch_to_ok {idx t : Nat} {c : Compiler} {a : Unit} {c' : Compiler}
    (h : patch_instruction_to idx t c = .ok a c') :
    (∀ n, n ≤ idx → ExtFrom n c c') ∧
      (current_chunk c').length = (current_chunk c).length ∧ c'.chunks = c.chunks := by
  rcases hc : c.contexts with _ | ⟨ctx, rest⟩ <;> rw [patch_instruction_to, hc] at h
  · exact absurd h (by simp)
  · rcases hp : patch_target (ctx.chunk.getD idx .Nil) t with _ | ⟨i'⟩ <;>
      simp only [hp] at h
    · exact absurd h (by simp)
    · injection h with h1 h2
      subst h2
      have hcur : current_chunk c = ctx.chunk := by rw [current_chunk, hc]
      refine ⟨?_, ?_, rfl⟩
      · intro n hn
        refine ⟨?_, ?_, ?_, ?_⟩ <;>
          simp [current_chunk, hc, hcur, take_set_of_le _ _ _ _ hn]
      · simp [current_chunk, hc, hcur]

theorem patch_ok {idx : Nat} {c : Compiler} {a : Unit} {c' : Compiler}
    (h : patch_instruction idx c = .ok a c') :
    (∀ n, n ≤ idx → ExtFrom n c c') ∧
      (current_chunk c').length = (current_chunk c).length ∧ c'.chunks = c.chunks :=
  patch_to_ok (h : patch_instruction_to idx (current_chunk c).length c = .ok a c')

theorem ext_comp {c1 c2 c3 : Compiler} (h1 : Ext c1 c2) (h2 : Ext c2 c3) : Ext c1 c3 :=
  extFrom_trans h1 (extFrom_mono h2 h1.2.2.2)

theorem ext_comp_patch {c ci cj : Compiler} (h1 : Ext c ci) {idx : Nat}
    (hstep : ∀ n, n ≤ idx → ExtFrom n ci cj)
    (hidx : (current_chunk c).length ≤ idx) : Ext c cj :=
  extFrom_trans h1 (hstep _ hidx)

theorem resolve_local_ok_state {name : String} {c : Compiler} {r : Option Nat} {c' : Compiler}
    (h : resolve_local name c = .ok r c') : c' = c := by
  rcases hc : c.contexts with _ | ⟨ctx, rest⟩ <;> rw [resolve_local, hc] at h
  · injection h with h1 h2
    exact h2.symm
  · dsimp only at h
    rcases hr : resolve_local_ctx name ctx with e | r0 <;> rw [hr] at h
    · exact absurd h (by simp)
    · injection h with h1 h2
      exact h2.symm

theorem add_upvalue_ctx_chunk (ctx : Context) (i : Nat) (b : Bool) :
    (add_upvalue_ctx ctx i b).2.chunk = ctx.chunk := by
  rw [add_upvalue_ctx]
  split <;> rfl

theorem mark_captured_chunk (ctx : Context) (slot : Nat) :
    (mark_captured ctx slot).chunk = ctx.chunk := rfl

theorem resolve_up_chain_chunks (name : String) :
    ∀ (ctxs : List Context) (r : Option (Nat × Bool)) (ctxs' : List Context),
      resolve_up_chain name ctxs = .ok (r, ctxs') →
      ctxs'.map Context.chunk = ctxs.map Context.chunk := by
  intro ctxs
  induction ctxs with
  | nil =>
    intro r ctxs' h
    rw [resolve_up_chain] at h
    obtain ⟨rfl, rfl⟩ : none = r ∧ [] = ctxs' := by simpa using h
    rfl
  | cons enclosing rest ih =>
    intro r ctxs' h
    rw [resolve_up_chain] at h
    rcases hr : resolve_local_ctx name enclosing with e | r0 <;> rw [hr] at h
    · exact absurd h (by simp)
    · rcases r0 with _ | slot
      · rcases hrec : resolve_up_chain name rest with e | ⟨r1, rest'⟩ <;> rw [hrec] at h
        · exact absurd h (by simp)
        · rcases r1 with _ | ⟨j, jl⟩
          · obtain ⟨rfl, rfl⟩ : none = r ∧ enclosing :: rest' = ctxs' := by simpa using h
            simp [ih _ _ hrec]
          · obtain ⟨rfl, rfl⟩ :
                some ((add_upvalue_ctx enclosing j jl).1, false) = r ∧
                  (add_upvalue_ctx enclosing j jl).2 :: rest' = ctxs' := by
              simpa using h
            simp [add_upvalue_ctx_chunk, ih _ _ hrec]
      · obtain ⟨rfl, rfl⟩ :
            some (slot, true) = r ∧ mark_captured enclosing slot :: rest = ctxs' := by
          simpa using h
        simp [mark_captured_chunk]

theorem ext_resolve_upvalue {name : String} {c : Compiler} {r : Option Nat} {c' : Compiler}
    (h : resolve_upvalue name c = .ok r c') :
    Ext c c' ∧ current_chunk c' = current_chunk c ∧ c'.chunks = c.chunks ∧
      c'.contexts.map Context.chunk = c.contexts.map Context.chunk := by
  rcases hc : c.contexts with _ | ⟨cur, rest⟩ <;> rw [resolve_upvalue, hc] at h
  · injection h with h1 h2
    subst h2
    exact ⟨extFrom_refl _ _, rfl, rfl, by rw [hc]⟩
  · dsimp only at h
    rcases hr : resolve_up_chain name rest with e | ⟨r0, rest'⟩ <;> rw [hr] at h
    · exact absurd h (by simp)
    · have hrest : rest'.map Context.chunk = rest.map Context.chunk :=
        resolve_up_chain_chunks name rest r0 rest' hr
      rcases r0 with _ | ⟨idx, isl⟩
      · injection h with h1 h2
        subst h2
        have hmap : (Compiler.mk c.chunks (cur :: rest')).contexts.map Context.chunk =
            c.contexts.map Context.chunk := by
          rw [hc]; simp [hrest]
        exact ⟨ext_of_map_chunk_eq hmap, current_chunk_of_map_eq hmap, rfl, hc ▸ hmap⟩
      · injection h with h1 h2
        subst h2
        have hmap : (Compiler.mk c.chunks ((add_upvalue_ctx cur idx isl).2 :: rest')).contexts.map
            Context.chunk = c.contexts.map Context.chunk := by
          rw [hc]; simp [hrest, add_upvalue_ctx_chunk]
        exact ⟨ext_of_map_chunk_eq hmap, current_chunk_of_map_eq hmap, rfl, hc ▸ hmap⟩

theorem ext_declare_variable {name : String} {c : Compiler} {a : Unit} {c' : Compiler}
    (h : declare_variable name c = .ok a c') :
    Ext c c' ∧ current_chunk c' = current_chunk c ∧ c'.chunks = c.chunks := by
  rw [declare_variable] at h
  rcases hs : is_scoped c with _ | _ <;> rw [hs] at h
  · simp only [if_false, Bool.false_eq_true] at h
    injection h with h1 h2
    subst h2
    exact ⟨extFrom_refl _ _, rfl, rfl⟩
  · simp only [if_true] at h
    rcases hl : has_local_in_current_scope name c with _ | _ <;> rw [hl] at h
    · simp only [if_false, Bool.false_eq_true] at h
      obtain ⟨he, hcur, hchunks, -⟩ := ext_add_local h
      exact ⟨he, hcur, hchunks⟩
    · simp only [if_true] at h
      exact absurd h (by simp)

theorem ext_define_variable {name : String} {c : Compiler} {a : Unit} {c' : Compiler}
    (h : define_variable name c = .ok a c') : Ext c c' ∧ c'.chunks = c.chunks := by
  rw [define_variable] at h
  rcases hs : is_scoped c with _ | _ <;> rw [hs] at h
  · simp only [if_false, Bool.false_eq_true, compM_bind_def, compM_pure_def] at h
    rw [show (bindC (add_constant (.String name)) fun constant =>
        bindC (add_instruction (.DefineGlobal constant)) fun x => pureC ()) c
      = _ from rfl] at h
    obtain ⟨k, c1, h1, h⟩ := (bindC_ok_iff _ _ _ _ _).mp h
    obtain ⟨n2, c2, h2, h⟩ := (bindC_ok_iff _ _ _ _ _).mp h
    obtain ⟨-, rfl⟩ := (pureC_ok_iff _ _ _ _).mp h
    obtain ⟨he1, -, hk1, -⟩ := ext_add_constant h1
    obtain ⟨he2, -, -, hk2⟩ := ext_add_instruction h2
    exact ⟨ext_comp he1 he2, hk2.trans hk1⟩
  · simp only [if_true] at h
    obtain ⟨he, -, hchunks, -⟩ := ext_mark_local_initialized h
    exact ⟨he, hchunks⟩

theorem ext_compile_nil {c : Compiler} {a : Unit} {c' : Compiler}
    (h : compile_nil c = .ok a c') : Ext c c' ∧ c'.chunks = c.chunks := by
  rw [compile_nil] at h
  simp only [compM_bind_def, compM_pure_def] at h
  obtain ⟨n, c1, h1, h⟩ := (bindC_ok_iff _ _ _ _ _).mp h
  obtain ⟨-, rfl⟩ := (pureC_ok_iff _ _ _ _).mp h
  obtain ⟨he, -, -, hk⟩ := ext_add_instruction h1
  exact ⟨he, hk⟩

theorem ext_compile_boolean {b : Bool} {c : Compiler} {a : Unit} {c' : Compiler}
    (h : compile_boolean b c = .ok a c') : Ext c c' ∧ c'.chunks = c.chunks := by
  rw [compile_boolean] at h
  rcases b with _ | _ <;>
    simp only [if_true, if_false, Bool.false_eq_true, compM_bind_def, compM_pure_def] at h <;>
  · obtain ⟨n, c1, h1, h⟩ := (bindC_ok_iff _ _ _ _ _).mp h
    obtain ⟨-, rfl⟩ := (pureC_ok_iff _ _ _ _).mp h
    obtain ⟨he, -, -, hk⟩ := ext_add_instruction h1
    exact ⟨he, hk⟩

theorem ext_compile_number {q : Rat} {c : Compiler} {a : Unit} {c' : Compiler}
    (h : compile_number q c = .ok a c') : Ext c c' ∧ c'.chunks = c.chunks := by
  rw [compile_number] at h
  simp only [compM_bind_def, compM_pure_def] at h
  obtain ⟨k, c1, h1, h⟩ := (bindC_ok_iff _ _ _ _ _).mp h
  obtain ⟨n, c2, h2, h⟩ := (bindC_ok_iff _ _ _ _ _).mp h
  obtain ⟨-, rfl⟩ := (pureC_ok_iff _ _ _ _).mp h
  obtain ⟨he1, -, hk1, -⟩ := ext_add_constant h1
  obtain ⟨he2, -, -, hk2⟩ := ext_add_instruction h2
  exact ⟨ext_comp he1 he2, hk2.trans hk1⟩

theorem ext_compile_string {s : String} {c : Compiler} {a : Unit} {c' : Compiler}
    (h : compile_string s c = .ok a c') : Ext c c' ∧ c'.chunks = c.chunks := by
  rw [compile_string] at h
  simp only [compM_bind_def, compM_pure_def] at h
  obtain ⟨k, c1, h1, h⟩ := (bindC_ok_iff _ _ _ _ _).mp h
  obtain ⟨n, c2, h2, h⟩ := (bindC_ok_iff _ _ _ _ _).mp h
  obtain ⟨-, rfl⟩ := (pureC_ok_iff _ _ _ _).mp h
  obtain ⟨he1, -, hk1, -⟩ := ext_add_constant h1
  obtain ⟨he2, -, -, hk2⟩ := ext_add_instruction h2
  exact ⟨ext_comp he1 he2, hk2.trans hk1⟩

theorem ext_compile_variable {name : String} {c : Compiler} {a : Unit} {c' : Compiler}
    (h : compile_variable name c = .ok a c') : Ext c c' ∧ c'.chunks = c.chunks := by
  rw [compile_variable] at h
  simp only [compM_bind_def, compM_pure_def] at h
  obtain ⟨r, c1, h1, h⟩ := (bindC_ok_iff _ _ _ _ _).mp h
  obtain rfl := resolve_local_ok_state h1
  rcases r with _ | slot
  · obtain ⟨r2, c2, h2, h⟩ := (bindC_ok_iff _ _ _ _ _).mp h
    obtain ⟨he2, -, hk2, -⟩ := ext_resolve_upvalue h2
    rcases r2 with _ | upv
    · obtain ⟨k, c3, h3, h⟩ := (bindC_ok_iff _ _ _ _ _).mp h
      obtain ⟨n, c4, h4, h⟩ := (bindC_ok_iff _ _ _ _ _).mp h
      obtain ⟨-, rfl⟩ := (pureC_ok_iff _ _ _ _).mp h
      obtain ⟨he3, -, hk3, -⟩ := ext_add_constant h3
      obtain ⟨he4, -, -, hk4⟩ := ext_add_instruction h4
      exact ⟨ext_comp (ext_comp he2 he3) he4, (hk4.trans hk3).trans hk2⟩
    · obtain ⟨n, c3, h3, h⟩ := (bindC_ok_iff _ _ _ _ _).mp h
      obtain ⟨-, rfl⟩ := (pureC_ok_iff _ _ _ _).mp h
      obtain ⟨he3, -, -, hk3⟩ := ext_add_instruction h3
      exact ⟨ext_comp he2 he3, hk3.trans hk2⟩
  · obtain ⟨n, c2, h2, h⟩ := (bindC_ok_iff _ _ _ _ _).mp h
    obtain ⟨-, rfl⟩ := (pureC_ok_iff _ _ _ _).mp h
    obtain ⟨he2, -, -, hk2⟩ := ext_add_instruction h2
    exact ⟨he2, hk2⟩

theorem ext_compile_class {name : String} {ext : Option String} {stmts : List Stmt}
    {c : Compiler} {a : Unit} {c' : Compiler}
    (h : compile_class name ext stmts c = .ok a c') : Ext c c' ∧ c'.chunks = c.chunks := by
  rw [compile_class] at h
  simp only [compM_bind_def, compM_pure_def] at h
  obtain ⟨u, c1, h1, h⟩ := (bindC_ok_iff _ _ _ _ _).mp h
  obtain ⟨k, c2, h2, h⟩ := (bindC_ok_iff _ _ _ _ _).mp h
  obtain ⟨n, c3, h3, h⟩ := (bindC_ok_iff _ _ _ _ _).mp h
  obtain ⟨u2, c4, h4, h⟩ := (bindC_ok_iff _ _ _ _ _).mp h
  obtain ⟨-, rfl⟩ := (pureC_ok_iff _ _ _ _).mp h
  obtain ⟨he1, -, hk1⟩ := ext_declare_variable h1
  obtain ⟨he2, -, hk2, -⟩ := ext_add_constant h2
  obtain ⟨he3, -, -, hk3⟩ := ext_add_instruction h3
  obtain ⟨he4, hk4⟩ := ext_define_variable h4
  exact ⟨ext_comp (ext_comp (ext_comp he1 he2) he3) he4,
    ((hk4.trans hk3).trans hk2).trans hk1⟩

theorem ext_declare_and_define_params :
    ∀ (args : List Identifier) (c : Compiler) (a : Unit) (c' : Compiler),
      declare_and_define_params args c = .ok a c' → Ext c c' ∧ c'.chunks = c.chunks := by
  intro args
  induction args with
  | nil =>
    intro c a c' h
    rw [declare_and_define_params] at h
    obtain ⟨-, rfl⟩ := (pureC_ok_iff _ _ _ _).mp h
    exact ⟨extFrom_refl _ _, rfl⟩
  | cons arg rest ih =>
    intro c a c' h
    rw [declare_and_define_params] at h
    simp only [compM_bind_def] at h
    obtain ⟨u1, c1, h1, h⟩ := (bindC_ok_iff _ _ _ _ _).mp h
    obtain ⟨u2, c2, h2, h⟩ := (bindC_ok_iff _ _ _ _ _).mp h
    obtain ⟨he1, -, hk1⟩ := ext_declare_variable h1
    obtain ⟨he2, hk2⟩ := ext_define_variable h2
    obtain ⟨he3, hk3⟩ := ih c2 a c' h
    exact ⟨ext_comp (ext_comp he1 he2) he3, (hk3.trans hk2).trans hk1⟩

theorem pop_context_ok {c : Compiler} {r : Nat × List Upvalue} {c' : Compiler}
    (h : pop_context c = .ok r c') :
    ∃ ctx rest, c.contexts = ctx :: rest ∧
      c' = ⟨c.chunks ++ [⟨ctx.chunk, ctx.constants⟩], rest⟩ ∧
      r = (c.chunks.length, ctx.upvalues) := by
  rcases hc : c.contexts with _ | ⟨ctx, rest⟩ <;> rw [pop_context, hc] at h
  · exact absurd h (by simp)
  · injection h with h1 h2
    exact ⟨ctx, rest, rfl, h2.symm, h1.symm⟩

theorem instruction_index_ok {c : Compiler} {n : Nat} {c' : Compiler}
    (h : instruction_index c = .ok n c') : n = (current_chunk c).length ∧ c' = c := by
  rw [instruction_index] at h
  injection h with h1 h2
  exact ⟨h1.symm, h2.symm⟩

theorem getCompiler_ok {c : Compiler} {a : Compiler} {c' : Compiler}
    (h : getCompiler c = .ok a c') : a = c ∧ c' = c := by
  rw [getCompiler] at h
  injection h with h1 h2
  exact ⟨h1.symm, h2.symm⟩

theorem compile_ast_go_ne_ok :
    ∀ (fuel : Nat) (ss : List Stmt) (acc : List CompilerError) (c : Compiler)
      (a : Unit) (c' : Compiler), acc ≠ [] → compile_ast_go fuel ss acc c ≠ .ok a c' := by
  intro fuel
  induction fuel with
  | zero =>
    intro ss acc c a c' hacc h
    rw [show compile_ast_go 0 ss acc = (outOfFuelC : CompM Unit) from rfl] at h
    exact absurd h (by simp [outOfFuelC, compilePanic])
  | succ fuel ih =>
    intro ss acc c a c' hacc h
    cases ss with
    | nil =>
      rw [compile_ast_go] at h
      rcases hae : acc.isEmpty with _ | _ <;> rw [hae] at h
      · simp only [Bool.false_eq_true, if_false] at h
        exact absurd h (by simp [throwErr])
      · exact absurd hae (by simpa [List.isEmpty_iff] using hacc)
    | cons s rest =>
      rw [compile_ast_go] at h
      dsimp only at h
      rcases hs : compile_stmt fuel s c with ⟨u, c1⟩ | ⟨f, c1⟩ <;> rw [hs] at h
      · exact ih rest acc c1 a c' hacc h
      · rcases f with e | m
        · exact ih rest (e :: acc) c1 a c' (by simp) h
        · exact absurd h (by simp)

theorem ite_compM_apply {P : Prop} [Decidable P] {α : Type} (m1 m2 : CompM α)
    (c : Compiler) : (if P then m1 else m2) c = if P then m1 c else m2 c := by
  split <;> rfl

theorem ext_all : ∀ fuel, ExtStep fuel := by
  intro fuel
  induction fuel with
  | zero =>
    refine ⟨?_, ?_, ?_, ?_, ?_, ?_, ?_, ?_, ?_, ?_, ?_, ?_, ?_, ?_, ?_, ?_, ?_, ?_, ?_, ?_,
      ?_, ?_⟩ <;>
    · intros
      intro c a c' h
      exact CRes.noConfusion h
  | succ fuel ih =>
    obtain ⟨ihS, ihA, ihG, ihE, ihP, ihES, ihB, ihV, ihIf, ihW, ihF, ihR, ihGt, ihSt, ihU,
      ihC, ihAr, ihL, ihLo, ihLa, ihAs, ihBin⟩ := ih
    have hstmt : ∀ s, ExtOk (compile_stmt (fuel + 1) s) := by
      intro s c a c' h
      cases s with
      | Print e =>
        rw [compile_stmt] at h
        exact ihP e c a c' h
      | Var idf e =>
        rw [compile_stmt] at h
        exact ihV idf e c a c' h
      | Block ss =>
        rw [compile_stmt] at h
        exact ihB ss c a c' h
      | Expression e =>
        rw [compile_stmt] at h
        exact ihES e c a c' h
      | If cnd t e =>
        rw [compile_stmt] at h
        exact ihIf cnd t e c a c' h
      | While cnd b =>
        rw [compile_stmt] at h
        exact ihW cnd b c a c' h
      | Function idf args blk =>
        rw [compile_stmt] at h
        exact ihF idf args blk c a c' h
      | Return e =>
        rw [compile_stmt] at h
        exact ihR e c a c' h
      | Class idf ex ss =>
        rw [compile_stmt] at h
        exact (ext_compile_class h).1
    have hexpr : ∀ e, ExtOk (compile_expr (fuel + 1) e) := by
      intro e c a c' h
      cases e with
      | Number q =>
        rw [compile_expr] at h
        exact (ext_compile_number h).1
      | String s =>
        rw [compile_expr] at h
        exact (ext_compile_string h).1
      | Binary l op r =>
        rw [compile_expr] at h
        exact ihBin op l r c a c' h
      | Variable idf =>
        rw [compile_expr] at h
        exact (ext_compile_variable h).1
      | Nil =>
        rw [compile_expr] at h
        exact (ext_compile_nil h).1
      | Boolean b =>
        rw [compile_expr] at h
        exact (ext_compile_boolean h).1
      | Assign idf v =>
        rw [compile_expr] at h
        exact ihAs idf v c a c' h
      | Logical l op r =>
        rw [compile_expr] at h
        exact ihL op l r c a c' h
      | Call callee args =>
        rw [compile_expr] at h
        exact ihC callee args c a c' h
      | Grouping g =>
        rw [compile_expr] at h
        exact ihE g c a c' h
      | Unary op v =>
        rw [compile_expr] at h
        exact ihU op v c a c' h
      | Set obj idf v =>
        rw [compile_expr] at h
        exact ihSt obj idf v c a c' h
      | Get obj idf =>
        rw [compile_expr] at h
        exact ihGt obj idf c a c' h
      | This =>
        rw [compile_expr] at h
        exact absurd h (by simp [compilePanic])
      | Super m =>
        rw [compile_expr] at h
        exact absurd h (by simp [compilePanic])
    refine ⟨hstmt, ?_, ?_, hexpr, ?_, ?_, ?_, ?_, ?_, ?_, ?_, ?_, ?_, ?_, ?_, ?_, ?_, ?_,
      ?_, ?_, ?_, ?_⟩
    -- compile_ast
    · intro ss c a c' h
      rw [compile_ast] at h
      exact ihG ss [] c a c' h
    -- compile_ast_go
    · intro ss acc c a c' h
      cases ss with
      | nil =>
        rw [compile_ast_go] at h
        rcases hae : acc.isEmpty with _ | _ <;> rw [hae] at h
        · simp only [Bool.false_eq_true, if_false] at h
          exact absurd h (by simp [throwErr])
        · simp only [if_true] at h
          obtain ⟨-, rfl⟩ := (pureC_ok_iff _ _ _ _).mp h
          exact extFrom_refl _ _
      | cons s rest =>
        rw [compile_ast_go] at h
        dsimp only at h
        rcases hs : compile_stmt fuel s c with ⟨u, c1⟩ | ⟨f, c1⟩ <;> rw [hs] at h
        · exact ext_comp (ihS s c u c1 hs) (ihG rest acc c1 a c' h)
        · rcases f with e | m
          · exact absurd h (compile_ast_go_ne_ok fuel rest (e :: acc) c1 a c' (by simp))
          · exact absurd h (by simp)
    -- compile_print
    · intro e c a c' h
      rw [compile_print] at h
      simp only [compM_bind_def, bindC_ok_iff, compM_pure_def, pureC_ok_iff] at h
      obtain ⟨u1, c1, h1, n2, c2, h2, -, rfl⟩ := h
      exact ext_comp (ihE e c u1 c1 h1) (ext_add_instruction h2).1
    -- compile_expression_statement
    · intro e c a c' h
      rw [compile_expression_statement] at h
      simp only [compM_bind_def, bindC_ok_iff, compM_pure_def, pureC_ok_iff] at h
      obtain ⟨u1, c1, h1, n2, c2, h2, -, rfl⟩ := h
      exact ext_comp (ihE e c u1 c1 h1) (ext_add_instruction h2).1
    -- compile_block
    · intro ss c a c' h
      rw [compile_block, with_scope] at h
      simp only [compM_bind_def, bindC_ok_iff, compM_pure_def, pureC_ok_iff] at h
      obtain ⟨u1, c1, h1, u2, c2, h2, u3, c3, h3, -, rfl⟩ := h
      exact ext_comp (ext_comp (ext_push_scope h1).1 (ihA ss c1 u2 c2 h2))
        (ext_pop_scope h3).1
    -- compile_var_declaration
    · intro idf e c a c' h
      rcases e with _ | e <;>
        rw [compile_var_declaration] at h <;>
        simp only [compM_bind_def, bindC_ok_iff, compM_pure_def, pureC_ok_iff] at h
      · obtain ⟨u1, c1, h1, u2, c2, h2, u3, c3, h3, -, rfl⟩ := h
        exact ext_comp (ext_comp (ext_declare_variable h1).1 (ext_compile_nil h2).1)
          (ext_define_variable h3).1
      · obtain ⟨u1, c1, h1, u2, c2, h2, u3, c3, h3, -, rfl⟩ := h
        exact ext_comp (ext_comp (ext_declare_variable h1).1 (ihE e c1 u2 c2 h2))
          (ext_define_variable h3).1
    -- compile_if
    · intro cnd t e c a c' h
      rw [compile_if] at h
      rcases e with _ | els
      · simp only [compM_bind_def, bindC_ok_iff, compM_pure_def, pureC_ok_iff] at h
        obtain ⟨u1, c1, h1, ti, c2, h2, u3, c3, h3, u4, c4, h4, h5⟩ := h
        obtain ⟨he2, hti, -, -⟩ := ext_add_instruction h2
        have r1 : Ext c c1 := ihE cnd c u1 c1 h1
        have r4 : Ext c c4 :=
          ext_comp (ext_comp (ext_comp r1 he2) (ext_add_instruction h3).1)
            (ihS t c3 u4 c4 h4)
        refine ext_comp_patch r4 (patch_ok h5).1 ?_
        rw [hti]
        exact r1.2.2.2
      · simp only [compM_bind_def, bindC_ok_iff, compM_pure_def, pureC_ok_iff] at h
        obtain ⟨u1, c1, h1, ti, c2, h2, u3, c3, h3, u4, c4, h4, ei, c5, h5, u6, c6, h6,
          u7, c7, h7, u8, c8, h8, h9⟩ := h
        obtain ⟨he2, hti, -, -⟩ := ext_add_instruction h2
        obtain ⟨he5, hei, -, -⟩ := ext_add_instruction h5
        have r1 : Ext c c1 := ihE cnd c u1 c1 h1
        have r4 : Ext c c4 :=
          ext_comp (ext_comp (ext_comp r1 he2) (ext_add_instruction h3).1)
            (ihS t c3 u4 c4 h4)
        have r5 : Ext c c5 := ext_comp r4 he5
        have r6 : Ext c c6 := ext_comp_patch r5 (patch_ok h6).1 (by rw [hti]; exact r1.2.2.2)
        have r8 : Ext c c8 :=
          ext_comp (ext_comp r6 (ext_add_instruction h7).1) (ihS els c7 u8 c8 h8)
        exact ext_comp_patch r8 (patch_ok h9).1 (by rw [hei]; exact r4.2.2.2)
    -- compile_while
    · intro cnd b c a c' h
      rw [compile_while] at h
      simp only [compM_bind_def, bindC_ok_iff, compM_pure_def, pureC_ok_iff] at h
      obtain ⟨ls, c0, h0, u1, c1, h1, ej, c2, h2, u3, c3, h3, u4, c4, h4, lj, c5, h5,
        u6, c6, h6, u7, c7, h7, n8, c8, h8, -, rfl⟩ := h
      obtain ⟨-, rfl⟩ := instruction_index_ok h0
      obtain ⟨he2, hej, -, -⟩ := ext_add_instruction h2
      obtain ⟨he5, hlj, -, -⟩ := ext_add_instruction h5
      have r1 : Ext c0 c1 := ihE cnd c0 u1 c1 h1
      have r4 : Ext c0 c4 :=
        ext_comp (ext_comp (ext_comp r1 he2) (ext_add_instruction h3).1) (ihS b c3 u4 c4 h4)
      have r5 : Ext c0 c5 := ext_comp r4 he5
      have r6 : Ext c0 c6 :=
        ext_comp_patch r5 (patch_to_ok h6).1 (by rw [hlj]; exact r4.2.2.2)
      have r7 : Ext c0 c7 :=
        ext_comp_patch r6 (patch_ok h7).1 (by rw [hej]; exact r1.2.2.2)
      exact ext_comp r7 (ext_add_instruction h8).1
    -- compile_function
    · intro idf args blk c a c' h
      rw [compile_function] at h
      simp only [compM_bind_def, bindC_ok_iff, compM_pure_def, pureC_ok_iff] at h
      obtain ⟨u1, c1, h1, g, c2, h2, h⟩ := h
      obtain ⟨rfl, rfl⟩ := getCompiler_ok h2
      have key : ∀ cs (p : Nat × List Upvalue) cs',
          with_scoped_context ContextType.Function (do
            declare_and_define_params args
            compile_block fuel blk
            let _ ← add_instruction Instruction.Nil
            let _ ← add_instruction Instruction.Return
            pure ()) cs = CRes.ok p cs' → Ext cs cs' := by
        intro cs p cs' h4
        rw [with_scoped_context, with_context] at h4
        simp only [compM_bind_def, bindC_ok_iff, compM_pure_def, pureC_ok_iff] at h4
        obtain ⟨p1, p2, hp1, q1, q2, hq1, hq2⟩ := h4
        rw [push_context] at hp1
        injection hp1 with hp1a hp1b
        obtain ⟨ctx4, rest4, hctx4, rfl, -⟩ := pop_context_ok hq2
        have hbody : Ext p2 q2 := by
          obtain ⟨b1, b2, hb1, b3, b4, hb2, b5, b6, hb3, b7, b8, hb4, b9, b10, hb5,
            b11, b12, hb6, b13, b14, hb7, -, rfl⟩ := hq1
          exact ext_comp (ext_comp (ext_comp (ext_comp (ext_comp
            (ext_add_local hb1).1 (ext_mark_local_initialized hb2).1)
            (ext_push_scope hb3).1)
            (ext_declare_and_define_params args b6 b7 b8 hb4).1)
            (ihB blk b8 b9 b10 hb5))
            (ext_comp (ext_add_instruction hb6).1 (ext_add_instruction hb7).1)
        have hmap : (Compiler.mk (q2.chunks ++ [⟨ctx4.chunk, ctx4.constants⟩]) rest4).contexts.map
            Context.chunk = cs.contexts.map Context.chunk := by
          have htail := hbody.2.1
          rw [← hp1b] at htail
          simp only [push_context] at htail
          rw [hctx4] at htail
          simpa using htail
        exact ext_of_map_chunk_eq hmap
      split at h
      · simp only [compM_bind_def, bindC_ok_iff, compM_pure_def, pureC_ok_iff] at h
        obtain ⟨u3, c3, h3, p, c4, h4, k5, c5, h5, n6, c6, h6, u7, c7, h7, -, rfl⟩ := h
        exact ext_comp (ext_comp (ext_comp (ext_comp (ext_comp
          (ext_declare_variable h1).1 (ext_mark_local_initialized h3).1)
          (key c3 p c4 h4)) (ext_add_constant h5).1)
          (ext_add_instruction h6).1) (ext_define_variable h7).1
      · simp only [compM_bind_def, bindC_ok_iff, compM_pure_def, pureC_ok_iff] at h
        obtain ⟨u3, c3, ⟨-, rfl⟩, p, c4, h4, k5, c5, h5, n6, c6, h6, u7, c7, h7, -, rfl⟩ := h
        exact ext_comp (ext_comp (ext_comp (ext_comp
          (ext_declare_variable h1).1
          (key c2 p c4 h4)) (ext_add_constant h5).1)
          (ext_add_instruction h6).1) (ext_define_variable h7).1
    -- compile_return
    · intro e c a c' h
      rcases e with _ | e <;>
        rw [compile_return] at h <;>
        simp only [compM_bind_def, bindC_ok_iff, compM_pure_def, pureC_ok_iff] at h
      · obtain ⟨u1, c1, h1, n2, c2, h2, -, rfl⟩ := h
        exact ext_comp (ext_compile_nil h1).1 (ext_add_instruction h2).1
      · obtain ⟨u1, c1, h1, n2, c2, h2, -, rfl⟩ := h
        exact ext_comp (ihE e c u1 c1 h1) (ext_add_instruction h2).1
    -- compiler_get
    · intro e idf c a c' h
      rw [compiler_get] at h
      simp only [compM_bind_def, bindC_ok_iff, compM_pure_def, pureC_ok_iff] at h
      obtain ⟨u1, c1, h1, k2, c2, h2, n3, c3, h3, -, rfl⟩ := h
      exact ext_comp (ext_comp (ihE e c u1 c1 h1) (ext_add_constant h2).1)
        (ext_add_instruction h3).1
    -- compiler_set
    · intro e idf v c a c' h
      rw [compiler_set] at h
      simp only [compM_bind_def, bindC_ok_iff, compM_pure_def, pureC_ok_iff] at h
      obtain ⟨u1, c1, h1, u2, c2, h2, k3, c3, h3, n4, c4, h4, -, rfl⟩ := h
      exact ext_comp (ext_comp (ext_comp (ihE e c u1 c1 h1) (ihE v c1 u2 c2 h2))
        (ext_add_constant h3).1) (ext_add_instruction h4).1
    -- compile_unary
    · intro op e c a c' h
      rcases op with _ | _ <;> rw [compile_unary] at h <;>
      · simp only [compM_bind_def, bindC_ok_iff, compM_pure_def, pureC_ok_iff] at h
        obtain ⟨u1, c1, h1, n2, c2, h2, -, rfl⟩ := h
        exact ext_comp (ihE e c u1 c1 h1) (ext_add_instruction h2).1
    -- compile_call
    · intro f args c a c' h
      rw [compile_call] at h
      simp only [compM_bind_def, bindC_ok_iff, compM_pure_def, pureC_ok_iff] at h
      obtain ⟨u1, c1, h1, u2, c2, h2, n3, c3, h3, -, rfl⟩ := h
      exact ext_comp (ext_comp (ihE f c u1 c1 h1) (ihAr args c1 u2 c2 h2))
        (ext_add_instruction h3).1
    -- compile_args_list
    · intro args c a c' h
      rcases args with _ | ⟨e, rest⟩
      · rw [compile_args_list] at h
        obtain ⟨-, rfl⟩ := (pureC_ok_iff _ _ _ _).mp h
        exact extFrom_refl _ _
      · rw [compile_args_list] at h
        simp only [compM_bind_def, bindC_ok_iff, compM_pure_def, pureC_ok_iff] at h
        obtain ⟨u1, c1, h1, h2⟩ := h
        exact ext_comp (ihE e c u1 c1 h1) (ihAr rest c1 a c' h2)
    -- compile_logical
    · intro op l r c a c' h
      rcases op with _ | _ <;> rw [compile_logical] at h
      · exact ihLa l r c a c' h
      · exact ihLo l r c a c' h
    -- compile_logical_or
    · intro l r c a c' h
      rw [compile_logical_or] at h
      simp only [compM_bind_def, bindC_ok_iff, compM_pure_def, pureC_ok_iff] at h
      obtain ⟨u1, c1, h1, ej, c2, h2, dj, c3, h3, u4, c4, h4, u5, c5, h5, u6, c6, h6, h7⟩ := h
      obtain ⟨he2, hej, -, -⟩ := ext_add_instruction h2
      obtain ⟨he3, hdj, -, -⟩ := ext_add_instruction h3
      have r1 : Ext c c1 := ihE l c u1 c1 h1
      have r3 : Ext c c3 := ext_comp (ext_comp r1 he2) he3
      have r4 : Ext c c4 := ext_comp_patch r3 (patch_ok h4).1 (by rw [hej]; exact r1.2.2.2)
      have r6 : Ext c c6 :=
        ext_comp (ext_comp r4 (ext_add_instruction h5).1) (ihE r c5 u6 c6 h6)
      have r2len : (current_chunk c).length ≤ (current_chunk c2).length :=
        (ext_comp r1 he2).2.2.2
      exact ext_comp_patch r6 (patch_ok h7).1 (by rw [hdj]; exact r2len)
    -- compile_logical_and
    · intro l r c a c' h
      rw [compile_logical_and] at h
      simp only [compM_bind_def, bindC_ok_iff, compM_pure_def, pureC_ok_iff] at h
      obtain ⟨u1, c1, h1, ej, c2, h2, u3, c3, h3, u4, c4, h4, h5⟩ := h
      obtain ⟨he2, hej, -, -⟩ := ext_add_instruction h2
      have r1 : Ext c c1 := ihE l c u1 c1 h1
      have r4 : Ext c c4 :=
        ext_comp (ext_comp (ext_comp r1 he2) (ext_add_instruction h3).1) (ihE r c3 u4 c4 h4)
      exact ext_comp_patch r4 (patch_ok h5).1 (by rw [hej]; exact r1.2.2.2)
    -- compile_assign
    · intro idf e c a c' h
      rw [compile_assign] at h
      simp only [compM_bind_def, bindC_ok_iff, compM_pure_def, pureC_ok_iff] at h
      obtain ⟨u1, c1, h1, r2, c2, h2, h⟩ := h
      rw [resolve_local_ok_state h2] at h
      have r1 : Ext c c1 := ihE e c u1 c1 h1
      rcases r2 with _ | slot <;>
        simp only [compM_bind_def, bindC_ok_iff, compM_pure_def, pureC_ok_iff] at h
      · obtain ⟨r3, c3, h3, h⟩ := h
        obtain ⟨he3, -, -, -⟩ := ext_resolve_upvalue h3
        rcases r3 with _ | upv <;>
          simp only [compM_bind_def, bindC_ok_iff, compM_pure_def, pureC_ok_iff] at h
        · obtain ⟨k4, c4, h4, n5, c5, h5, -, rfl⟩ := h
          exact ext_comp (ext_comp (ext_comp r1 he3) (ext_add_constant h4).1)
            (ext_add_instruction h5).1
        · obtain ⟨n4, c4, h4, -, rfl⟩ := h
          exact ext_comp (ext_comp r1 he3) (ext_add_instruction h4).1
      · obtain ⟨n3, c3, h3, -, rfl⟩ := h
        exact ext_comp r1 (ext_add_instruction h3).1
    -- compile_binary
    · intro op l r c a c' h
      rcases op with _ | _ | _ | _ | _ | _ | _ | _ | _ | _ <;>
        rw [compile_binary] at h <;>
        simp only [compM_bind_def, bindC_ok_iff, compM_pure_def, pureC_ok_iff] at h <;>
        first
        | (obtain ⟨u1, c1, h1, u2, c2, h2, n3, c3, h3, n4, c4, h4, -, rfl⟩ := h
           exact ext_comp (ext_comp (ext_comp (ihE l c u1 c1 h1) (ihE r c1 u2 c2 h2))
             (ext_add_instruction h3).1) (ext_add_instruction h4).1)
        | (obtain ⟨u1, c1, h1, u2, c2, h2, n3, c3, h3, -, rfl⟩ := h
           exact ext_comp (ext_comp (ihE l c u1 c1 h1) (ihE r c1 u2 c2 h2))
             (ext_add_instruction h3).1)

/-- Projection of `ext_all`: a successful expression compilation respects the
emission discipline. -/
theorem ext_compile_expr {fuel : Nat} {e : Expr} {c : Compiler} {a : Unit}
    {c' : Compiler} (h : compile_expr fuel e c = .ok a c') : Ext c c' :=
  (ext_all fuel).2.2.2.1 e c a c' h

/-- Projection of `ext_all`: a successful statement compilation respects the
emission discipline. -/
theorem ext_compile_stmt {fuel : Nat} {st : Stmt} {c : Compiler} {a : Unit}
    {c' : Compiler} (h : compile_stmt fuel st c = .ok a c') : Ext c c' :=
  (ext_all fuel).1 st c a c' h

/-- Evaluating a bind whose first component is known to succeed. -/
theorem bindC_apply_ok {α β : Type} {m : CompM α} {f : α → CompM β} {c : Compiler}
    {a : α} {c1 : Compiler} (h : m c = .ok a c1) :
    bindC m f c = f a c1 := by
  have hm : bindC m f c = match m c with
    | .ok a c' => f a c'
    | .err e c' => .err e c' := rfl
  rw [hm, h]

/-- C3: a logical-and expression compiles to the left operand, one
`JumpIfFalse` placeholder, a `Pop`, then the right operand, and the final
act is patching that single `JumpIfFalse` to the index one past the last
instruction of the right operand, so the jump target lies past every
right-operand instruction (short-circuit). -/
theorem claim3_logical_and_emission :
    ∀ (fuel : Nat) (l r : Expr) (c c1 c2 : Compiler),
      compile_expr fuel l c = .ok () c1 →
      compile_expr fuel r (append_instructions [.JumpIfFalse 0, .Pop] c1) = .ok () c2 →
      c1.contexts ≠ [] →
      compile_logical_and (fuel + 1) l r c =
        .ok () (set_instruction (current_chunk c1).length
          (.JumpIfFalse (current_chunk c2).length) c2) ∧
      (current_chunk c2).take ((current_chunk c1).length + 2) =
        current_chunk c1 ++ [.JumpIfFalse 0, .Pop] ∧
      (current_chunk (set_instruction (current_chunk c1).length
          (.JumpIfFalse (current_chunk c2).length) c2)).length =
        (current_chunk c2).length := by
  intro fuel l r c c1 c2 h1 h2 hne
  rcases hc1 : c1.contexts with _ | ⟨ctx, rest⟩
  · exact absurd hc1 hne
  have hcur1 : current_chunk c1 = ctx.chunk := by rw [current_chunk, hc1]
  have hB : append_instructions [.JumpIfFalse 0, .Pop] c1 =
      ⟨c1.chunks, { ctx with chunk := ctx.chunk ++ [.JumpIfFalse 0, .Pop] } :: rest⟩ := by
    rw [append_instructions, hc1]
  rw [hB] at h2
  have hExt : Ext (⟨c1.chunks,
      { ctx with chunk := ctx.chunk ++ [.JumpIfFalse 0, .Pop] } :: rest⟩ : Compiler) c2 :=
    ext_compile_expr h2
  have hcurB : current_chunk (⟨c1.chunks,
      { ctx with chunk := ctx.chunk ++ [.JumpIfFalse 0, .Pop] } :: rest⟩ : Compiler) =
      ctx.chunk ++ [.JumpIfFalse 0, .Pop] := rfl
  have htake : (current_chunk c2).take (ctx.chunk.length + 2) =
      ctx.chunk ++ [.JumpIfFalse 0, .Pop] := by
    have h := hExt.2.2.1
    rw [hcurB] at h
    rw [List.take_length] at h
    simpa using h
  have hat : (current_chunk c2)[ctx.chunk.length]? = some (.JumpIfFalse 0) := by
    have h := take_pres_getElem (ctx.chunk ++ [.JumpIfFalse 0, .Pop]) (current_chunk c2)
      (ctx.chunk.length + 2)
      (by rw [htake]; exact (List.take_of_length_le (by simp)).symm) ctx.chunk.length (by omega)
    rw [h, List.getElem?_append_right (Nat.le_refl _)]
    simp
  rcases hc2 : c2.contexts with _ | ⟨ctx2, rest2⟩
  · exfalso
    have := hExt.1
    rw [hc2] at this
    simp at this
  have hcur2 : current_chunk c2 = ctx2.chunk := by rw [current_chunk, hc2]
  have hpatch : patch_instruction ctx.chunk.length c2 =
      .ok () (set_instruction ctx.chunk.length
        (.JumpIfFalse (current_chunk c2).length) c2) := by
    have hgd : (ctx2.chunk[ctx.chunk.length]?).getD Instruction.Nil =
        Instruction.JumpIfFalse 0 := by
      rw [← hcur2, hat]
      rfl
    simp [patch_instruction, patch_instruction_to, hc2, hgd, patch_target,
      set_instruction, hcur2]
  refine ⟨?_, by rw [hcur1]; exact htake, by simp [set_instruction, hc2, current_chunk]⟩
  rw [compile_logical_and]
  simp only [compM_bind_def, compM_pure_def]
  rw [bindC_apply_ok h1]
  rw [bindC_apply_ok (show add_instruction (Instruction.JumpIfFalse 0) c1 =
      CRes.ok ctx.chunk.length
        ⟨c1.chunks, { ctx with chunk := ctx.chunk ++ [Instruction.JumpIfFalse 0] } :: rest⟩ from
      by rw [add_instruction, hc1])]
  rw [bindC_apply_ok (show add_instruction Instruction.Pop
      (⟨c1.chunks, { ctx with
          chunk := ctx.chunk ++ [Instruction.JumpIfFalse 0] } :: rest⟩ : Compiler) =
      CRes.ok (ctx.chunk ++ [Instruction.JumpIfFalse 0]).length
        ⟨c1.chunks, { ctx with
          chunk := ctx.chunk ++ [Instruction.JumpIfFalse 0, Instruction.Pop] } :: rest⟩ from
      by rw [add_instruction]; simp)]
  rw [bindC_apply_ok h2, hcur1]
  exact hpatch

theorem claim3_logical_and_emission_witness :
    compile_logical_and 2 .Nil .Nil ⟨[], [⟨.TopLevel, [], [], [], 0, []⟩]⟩ =
      .ok () (set_instruction 1 (.JumpIfFalse 4)
        ⟨[], [⟨.TopLevel, [.Nil, .JumpIfFalse 0, .Pop, .Nil], [], [], 0, []⟩]⟩) ∧
    (current_chunk (⟨[], [⟨.TopLevel, [.Nil, .JumpIfFalse 0, .Pop, .Nil], [], [], 0, []⟩]⟩ :
        Compiler)).take 3 = [.Nil, .JumpIfFalse 0, .Pop] := by
  have h := claim3_logical_and_emission 1 .Nil .Nil
    ⟨[], [⟨.TopLevel, [], [], [], 0, []⟩]⟩
    ⟨[], [⟨.TopLevel, [.Nil], [], [], 0, []⟩]⟩
    ⟨[], [⟨.TopLevel, [.Nil, .JumpIfFalse 0, .Pop, .Nil], [], [], 0, []⟩]⟩
    rfl rfl (by simp)
  refine ⟨?_, ?_⟩
  · simpa [current_chunk] using h.1
  · simpa [current_chunk] using h.2.1

/-- C2: an if-statement compiles to condition; `JumpIfFalse` placeholder `T`;
`Pop`; then-branch; and then, with an else branch: `Jump` placeholder `E`,
patch `T` to the index after the `Jump` (the start of the false path's
`Pop`), `Pop`, else-branch, patch `E` to the end; without an else branch the
final act is only patching `T` to the end — nothing more is emitted, in
particular no `Pop` on the false path. -/
theorem claim2_if_emission :
    (∀ (fuel : Nat) (cnd : Expr) (t : Stmt) (c c1 c2 : Compiler),
      compile_expr fuel cnd c = .ok () c1 →
      compile_stmt fuel t (append_instructions [Instruction.JumpIfFalse 0, Instruction.Pop] c1) = .ok () c2 →
      c1.contexts ≠ [] →
      compile_if (fuel + 1) cnd t none c =
        .ok () (set_instruction (current_chunk c1).length
          (Instruction.JumpIfFalse (current_chunk c2).length) c2) ∧
      (current_chunk c2).take ((current_chunk c1).length + 2) =
        current_chunk c1 ++ [Instruction.JumpIfFalse 0, Instruction.Pop] ∧
      (current_chunk (set_instruction (current_chunk c1).length
          (Instruction.JumpIfFalse (current_chunk c2).length) c2)).length =
        (current_chunk c2).length) ∧
    (∀ (fuel : Nat) (cnd : Expr) (t els : Stmt) (c c1 c2 c3 : Compiler),
      compile_expr fuel cnd c = .ok () c1 →
      compile_stmt fuel t (append_instructions [Instruction.JumpIfFalse 0, Instruction.Pop] c1) = .ok () c2 →
      compile_stmt fuel els (append_instructions [Instruction.Pop]
        (set_instruction (current_chunk c1).length
          (Instruction.JumpIfFalse ((current_chunk c2).length + 1))
          (append_instructions [Instruction.Jump 0] c2))) = .ok () c3 →
      c1.contexts ≠ [] →
      compile_if (fuel + 1) cnd t (some els) c =
        .ok () (set_instruction (current_chunk c2).length
          (Instruction.Jump (current_chunk c3).length) c3) ∧
      (current_chunk c2).take ((current_chunk c1).length + 2) =
        current_chunk c1 ++ [Instruction.JumpIfFalse 0, Instruction.Pop] ∧
      (current_chunk c3).take ((current_chunk c2).length + 2) =
        (current_chunk c2 ++ [Instruction.Jump 0]).set (current_chunk c1).length
          (Instruction.JumpIfFalse ((current_chunk c2).length + 1)) ++ [Instruction.Pop] ∧
      (current_chunk (set_instruction (current_chunk c2).length
          (Instruction.Jump (current_chunk c3).length) c3)).length =
        (current_chunk c3).length) := by
  constructor
  · intro fuel cnd t c c1 c2 h1 h2 hne
    rcases hc1 : c1.contexts with _ | ⟨ctx, rest⟩
    · exact absurd hc1 hne
    have hcur1 : current_chunk c1 = ctx.chunk := by rw [current_chunk, hc1]
    have hBst : append_instructions [Instruction.JumpIfFalse 0, Instruction.Pop] c1 =
        ⟨c1.chunks, { ctx with chunk := ctx.chunk ++ [Instruction.JumpIfFalse 0, Instruction.Pop] } :: rest⟩ := by
      rw [append_instructions, hc1]
    rw [hBst] at h2
    have hExtB : Ext (⟨c1.chunks,
        { ctx with chunk := ctx.chunk ++ [Instruction.JumpIfFalse 0, Instruction.Pop] } :: rest⟩ : Compiler) c2 :=
      ext_compile_stmt h2
    have htake : (current_chunk c2).take (ctx.chunk.length + 2) =
        ctx.chunk ++ [Instruction.JumpIfFalse 0, Instruction.Pop] := by
      have h := hExtB.2.2.1
      rw [show current_chunk (⟨c1.chunks,
        { ctx with chunk := ctx.chunk ++ [Instruction.JumpIfFalse 0, Instruction.Pop] } :: rest⟩ : Compiler) =
        ctx.chunk ++ [Instruction.JumpIfFalse 0, Instruction.Pop] from rfl] at h
      rw [List.take_length] at h
      simpa using h
    have hat : (current_chunk c2)[ctx.chunk.length]? = some (Instruction.JumpIfFalse 0) := by
      have h := take_pres_getElem (ctx.chunk ++ [Instruction.JumpIfFalse 0, Instruction.Pop]) (current_chunk c2)
        (ctx.chunk.length + 2)
        (by rw [htake]; exact (List.take_of_length_le (by simp)).symm) ctx.chunk.length
        (by omega)
      rw [h, List.getElem?_append_right (Nat.le_refl _)]
      simp
    rcases hc2 : c2.contexts with _ | ⟨ctx2, rest2⟩
    · exfalso
      have h := hExtB.1
      rw [hc2] at h
      simp at h
    have hcur2 : current_chunk c2 = ctx2.chunk := by rw [current_chunk, hc2]
    have hpatch : patch_instruction ctx.chunk.length c2 =
        .ok () (set_instruction ctx.chunk.length
          (Instruction.JumpIfFalse (current_chunk c2).length) c2) := by
      have hgd : (ctx2.chunk[ctx.chunk.length]?).getD Instruction.Nil =
          Instruction.JumpIfFalse 0 := by
        rw [← hcur2, hat]
        rfl
      simp [patch_instruction, patch_instruction_to, hc2, hgd, patch_target,
        set_instruction, hcur2]
    refine ⟨?_, by rw [hcur1]; exact htake, by simp [set_instruction, hc2, current_chunk]⟩
    rw [compile_if]
    simp only [compM_bind_def, compM_pure_def]
    rw [bindC_apply_ok h1]
    rw [bindC_apply_ok (show add_instruction (Instruction.JumpIfFalse 0) c1 =
        CRes.ok ctx.chunk.length
          ⟨c1.chunks, { ctx with chunk := ctx.chunk ++ [Instruction.JumpIfFalse 0] } :: rest⟩ from
        by rw [add_instruction, hc1])]
    rw [bindC_apply_ok (show add_instruction Instruction.Pop
        (⟨c1.chunks, { ctx with
            chunk := ctx.chunk ++ [Instruction.JumpIfFalse 0] } :: rest⟩ : Compiler) =
        CRes.ok (ctx.chunk ++ [Instruction.JumpIfFalse 0]).length
          ⟨c1.chunks, { ctx with
            chunk := ctx.chunk ++ [Instruction.JumpIfFalse 0, Instruction.Pop] } :: rest⟩ from
        by rw [add_instruction]; simp)]
    rw [bindC_apply_ok h2, hcur1]
    exact hpatch
  · intro fuel cnd t els c c1 c2 c3 h1 h2 h3 hne
    rcases hc1 : c1.contexts with _ | ⟨ctx, rest⟩
    · exact absurd hc1 hne
    have hcur1 : current_chunk c1 = ctx.chunk := by rw [current_chunk, hc1]
    have hBst : append_instructions [Instruction.JumpIfFalse 0, Instruction.Pop] c1 =
        ⟨c1.chunks, { ctx with chunk := ctx.chunk ++ [Instruction.JumpIfFalse 0, Instruction.Pop] } :: rest⟩ := by
      rw [append_instructions, hc1]
    rw [hBst] at h2
    have hExtB : Ext (⟨c1.chunks,
        { ctx with chunk := ctx.chunk ++ [Instruction.JumpIfFalse 0, Instruction.Pop] } :: rest⟩ : Compiler) c2 :=
      ext_compile_stmt h2
    have htake : (current_chunk c2).take (ctx.chunk.length + 2) =
        ctx.chunk ++ [Instruction.JumpIfFalse 0, Instruction.Pop] := by
      have h := hExtB.2.2.1
      rw [show current_chunk (⟨c1.chunks,
        { ctx with chunk := ctx.chunk ++ [Instruction.JumpIfFalse 0, Instruction.Pop] } :: rest⟩ : Compiler) =
        ctx.chunk ++ [Instruction.JumpIfFalse 0, Instruction.Pop] from rfl] at h
      rw [List.take_length] at h
      simpa using h
    have hat : (current_chunk c2)[ctx.chunk.length]? = some (Instruction.JumpIfFalse 0) := by
      have h := take_pres_getElem (ctx.chunk ++ [Instruction.JumpIfFalse 0, Instruction.Pop]) (current_chunk c2)
        (ctx.chunk.length + 2)
        (by rw [htake]; exact (List.take_of_length_le (by simp)).symm) ctx.chunk.length
        (by omega)
      rw [h, List.getElem?_append_right (Nat.le_refl _)]
      simp
    have hlen2 : ctx.chunk.length + 2 ≤ (current_chunk c2).length := by
      have h := hExtB.2.2.2
      rw [show current_chunk (⟨c1.chunks,
        { ctx with chunk := ctx.chunk ++ [Instruction.JumpIfFalse 0, Instruction.Pop] } :: rest⟩ : Compiler) =
        ctx.chunk ++ [Instruction.JumpIfFalse 0, Instruction.Pop] from rfl] at h
      simpa using h
    rcases hc2 : c2.contexts with _ | ⟨ctx2, rest2⟩
    · exfalso
      have h := hExtB.1
      rw [hc2] at h
      simp at h
    have hcur2 : current_chunk c2 = ctx2.chunk := by rw [current_chunk, hc2]
    have hTE : ctx.chunk.length + 2 ≤ ctx2.chunk.length := by rw [← hcur2]; exact hlen2
    have hstC : append_instructions [Instruction.Jump 0] c2 =
        ⟨c2.chunks, { ctx2 with chunk := ctx2.chunk ++ [Instruction.Jump 0] } :: rest2⟩ := by
      rw [append_instructions, hc2]
    have hgdC : ((ctx2.chunk ++ [Instruction.Jump 0])[ctx.chunk.length]?).getD
        Instruction.Nil = Instruction.JumpIfFalse 0 := by
      rw [List.getElem?_append_left (by omega), ← hcur2, hat]
      rfl
    have hpatchT : patch_instruction ctx.chunk.length
        (⟨c2.chunks, { ctx2 with chunk := ctx2.chunk ++ [Instruction.Jump 0] } :: rest2⟩ : Compiler) =
        .ok () ⟨c2.chunks, { ctx2 with
          chunk := (ctx2.chunk ++ [Instruction.Jump 0]).set ctx.chunk.length
            (Instruction.JumpIfFalse (ctx2.chunk.length + 1)) } :: rest2⟩ := by
      simp [patch_instruction, patch_instruction_to, hgdC, patch_target, current_chunk]
    rw [hcur1, hcur2, hstC] at h3
    have h3e : compile_stmt fuel els
        (⟨c2.chunks, { ctx2 with
          chunk := (ctx2.chunk ++ [Instruction.Jump 0]).set ctx.chunk.length
            (Instruction.JumpIfFalse (ctx2.chunk.length + 1)) ++ [Instruction.Pop] } :: rest2⟩ : Compiler) =
        .ok () c3 := h3
    have hExtE : Ext (⟨c2.chunks, { ctx2 with
        chunk := (ctx2.chunk ++ [Instruction.Jump 0]).set ctx.chunk.length
          (Instruction.JumpIfFalse (ctx2.chunk.length + 1)) ++ [Instruction.Pop] } :: rest2⟩ : Compiler) c3 :=
      ext_compile_stmt h3e
    have htail3 : (current_chunk c3).take (ctx2.chunk.length + 2) =
        (ctx2.chunk ++ [Instruction.Jump 0]).set ctx.chunk.length
          (Instruction.JumpIfFalse (ctx2.chunk.length + 1)) ++ [Instruction.Pop] := by
      have h := hExtE.2.2.1
      rw [show current_chunk (⟨c2.chunks, { ctx2 with
        chunk := (ctx2.chunk ++ [Instruction.Jump 0]).set ctx.chunk.length
          (Instruction.JumpIfFalse (ctx2.chunk.length + 1)) ++ [Instruction.Pop] } :: rest2⟩ : Compiler) =
        (ctx2.chunk ++ [Instruction.Jump 0]).set ctx.chunk.length
          (Instruction.JumpIfFalse (ctx2.chunk.length + 1)) ++ [Instruction.Pop] from rfl] at h
      rw [List.take_length] at h
      simpa using h
    have hat3 : (current_chunk c3)[ctx2.chunk.length]? = some (Instruction.Jump 0) := by
      have h := take_pres_getElem
        ((ctx2.chunk ++ [Instruction.Jump 0]).set ctx.chunk.length
          (Instruction.JumpIfFalse (ctx2.chunk.length + 1)) ++ [Instruction.Pop]) (current_chunk c3)
        (ctx2.chunk.length + 2)
        (by rw [htail3]; exact (List.take_of_length_le (by simp)).symm) ctx2.chunk.length
        (by omega)
      rw [h, List.getElem?_append_left (by simp), List.getElem?_set_ne (by omega),
        List.getElem?_append_right (Nat.le_refl _)]
      simp
    rcases hc3 : c3.contexts with _ | ⟨ctx3, rest3⟩
    · exfalso
      have h := hExtE.1
      rw [hc3] at h
      simp at h
    have hcur3 : current_chunk c3 = ctx3.chunk := by rw [current_chunk, hc3]
    have hpatchE : patch_instruction ctx2.chunk.length c3 =
        .ok () (set_instruction ctx2.chunk.length
          (Instruction.Jump (current_chunk c3).length) c3) := by
      have hgd : (ctx3.chunk[ctx2.chunk.length]?).getD Instruction.Nil =
          Instruction.Jump 0 := by
        rw [← hcur3, hat3]
        rfl
      simp [patch_instruction, patch_instruction_to, hc3, hgd, patch_target,
        set_instruction, hcur3]
    refine ⟨?_, by rw [hcur1]; exact htake, by rw [hcur1, hcur2]; exact htail3,
      by simp [set_instruction, hc3, current_chunk]⟩
    rw [compile_if]
    simp only [compM_bind_def, compM_pure_def]
    rw [bindC_apply_ok h1]
    rw [bindC_apply_ok (show add_instruction (Instruction.JumpIfFalse 0) c1 =
        CRes.ok ctx.chunk.length
          ⟨c1.chunks, { ctx with chunk := ctx.chunk ++ [Instruction.JumpIfFalse 0] } :: rest⟩ from
        by rw [add_instruction, hc1])]
    rw [bindC_apply_ok (show add_instruction Instruction.Pop
        (⟨c1.chunks, { ctx with
            chunk := ctx.chunk ++ [Instruction.JumpIfFalse 0] } :: rest⟩ : Compiler) =
        CRes.ok (ctx.chunk ++ [Instruction.JumpIfFalse 0]).length
          ⟨c1.chunks, { ctx with
            chunk := ctx.chunk ++ [Instruction.JumpIfFalse 0, Instruction.Pop] } :: rest⟩ from
        by rw [add_instruction]; simp)]
    rw [bindC_apply_ok h2]
    rw [bindC_apply_ok (show add_instruction (Instruction.Jump 0) c2 =
        CRes.ok ctx2.chunk.length
          (⟨c2.chunks, { ctx2 with chunk := ctx2.chunk ++ [Instruction.Jump 0] } :: rest2⟩ : Compiler) from
        by rw [add_instruction, hc2])]
    rw [bindC_apply_ok hpatchT]
    rw [bindC_apply_ok (show add_instruction Instruction.Pop
        (⟨c2.chunks, { ctx2 with
          chunk := (ctx2.chunk ++ [Instruction.Jump 0]).set ctx.chunk.length
            (Instruction.JumpIfFalse (ctx2.chunk.length + 1)) } :: rest2⟩ : Compiler) =
        CRes.ok ((ctx2.chunk ++ [Instruction.Jump 0]).set ctx.chunk.length
            (Instruction.JumpIfFalse (ctx2.chunk.length + 1))).length
          (⟨c2.chunks, { ctx2 with
            chunk := (ctx2.chunk ++ [Instruction.Jump 0]).set ctx.chunk.length
              (Instruction.JumpIfFalse (ctx2.chunk.length + 1)) ++ [Instruction.Pop] } :: rest2⟩ : Compiler) from
        by rw [add_instruction])]
    rw [bindC_apply_ok h3e, hcur2]
    exact hpatchE

theorem claim2_if_emission_witness :
    (compile_if 4 .Nil (.Expression .Nil) none ⟨[], [⟨.TopLevel, [], [], [], 0, []⟩]⟩ =
      .ok () (set_instruction 1 (.JumpIfFalse 5)
        ⟨[], [⟨.TopLevel, [.Nil, .JumpIfFalse 0, .Pop, .Nil, .Pop], [], [], 0, []⟩]⟩)) ∧
    (compile_if 4 .Nil (.Expression .Nil) (some (.Expression .Nil))
        ⟨[], [⟨.TopLevel, [], [], [], 0, []⟩]⟩ =
      .ok () (set_instruction 5 (.Jump 9)
        ⟨[], [⟨.TopLevel,
          [.Nil, .JumpIfFalse 6, .Pop, .Nil, .Pop, .Jump 0, .Pop, .Nil, .Pop],
          [], [], 0, []⟩]⟩)) := by
  constructor
  · have h := claim2_if_emission.1 3 .Nil (.Expression .Nil)
      ⟨[], [⟨.TopLevel, [], [], [], 0, []⟩]⟩
      ⟨[], [⟨.TopLevel, [.Nil], [], [], 0, []⟩]⟩
      ⟨[], [⟨.TopLevel, [.Nil, .JumpIfFalse 0, .Pop, .Nil, .Pop], [], [], 0, []⟩]⟩
      rfl rfl (by simp)
    simpa [current_chunk] using h.1
  · have h := claim2_if_emission.2 3 .Nil (.Expression .Nil) (.Expression .Nil)
      ⟨[], [⟨.TopLevel, [], [], [], 0, []⟩]⟩
      ⟨[], [⟨.TopLevel, [.Nil], [], [], 0, []⟩]⟩
      ⟨[], [⟨.TopLevel, [.Nil, .JumpIfFalse 0, .Pop, .Nil, .Pop], [], [], 0, []⟩]⟩
      ⟨[], [⟨.TopLevel,
        [.Nil, .JumpIfFalse 6, .Pop, .Nil, .Pop, .Jump 0, .Pop, .Nil, .Pop],
        [], [], 0, []⟩]⟩
      rfl rfl rfl (by simp)
    simpa [current_chunk] using h.1

/-! ## Chunk-list preservation (section 3 invariant, claim C7) -/

/-- Evaluating a bind whose first component is known to fail. -/
theorem bindC_apply_err {α β : Type} {m : CompM α} {f : α → CompM β} {c : Compiler}
    {e : Failure} {c1 : Compiler} (h : m c = .err e c1) :
    bindC m f c = .err e c1 := by
  have hm : bindC m f c = match m c with
    | .ok a c' => f a c'
    | .err e c' => .err e c' := rfl
  rw [hm, h]

theorem goodPres_of_chunks {α : Type} {f : CompM α}
    (h : ∀ c, (resState (f c)).chunks = c.chunks) : GoodPres f := by
  intro c hc ch hch
  rw [h c] at hch
  exact hc ch hch

theorem goodPres_bind {α β : Type} {m : CompM α} {k : α → CompM β}
    (hm : GoodPres m) (hk : ∀ a, GoodPres (k a)) : GoodPres (bindC m k) := by
  intro c hc
  rcases hm' : m c with ⟨a, c1⟩ | ⟨f1, c1⟩
  · have h1 := hm c hc
    rw [hm'] at h1
    rw [bindC_apply_ok hm']
    exact hk a c1 h1
  · have h1 := hm c hc
    rw [hm'] at h1
    rw [bindC_apply_err hm']
    exact h1

theorem gp_pureC {α : Type} (a : α) : GoodPres (pureC a) :=
  goodPres_of_chunks fun _ => rfl

theorem gp_throwErr {α : Type} (e : CompilerError) : GoodPres (throwErr e : CompM α) :=
  goodPres_of_chunks fun _ => rfl

theorem gp_compilePanic {α : Type} (msg : String) : GoodPres (compilePanic msg : CompM α) :=
  goodPres_of_chunks fun _ => rfl

theorem gp_outOfFuelC {α : Type} : GoodPres (outOfFuelC : CompM α) :=
  goodPres_of_chunks fun _ => rfl

theorem gp_getCompiler : GoodPres getCompiler :=
  goodPres_of_chunks fun _ => rfl

theorem gp_instruction_index : GoodPres instruction_index :=
  goodPres_of_chunks fun _ => rfl

theorem gp_add_instruction (i : Instruction) : GoodPres (add_instruction i) :=
  goodPres_of_chunks (by
    intro c
    rcases hc : c.contexts with _ | ⟨ctx, rest⟩ <;> simp [add_instruction, hc, resState])

theorem gp_add_constant (k : Constant) : GoodPres (add_constant k) :=
  goodPres_of_chunks (by
    intro c
    rcases hc : c.contexts with _ | ⟨ctx, rest⟩ <;> simp [add_constant, hc, resState])

theorem gp_add_local (name : String) : GoodPres (add_local name) :=
  goodPres_of_chunks (by
    intro c
    rcases hc : c.contexts with _ | ⟨ctx, rest⟩ <;> simp [add_local, hc, resState])

theorem gp_mark_local_initialized : GoodPres mark_local_initialized :=
  goodPres_of_chunks (by
    intro c
    rcases hc : c.contexts with _ | ⟨ctx, rest⟩
    · simp [mark_local_initialized, hc, resState]
    · rcases hl : ctx.locals.getLast? with _ | l <;>
        simp [mark_local_initialized, hc, hl, resState])

theorem gp_push_scope : GoodPres push_scope :=
  goodPres_of_chunks (by
    intro c
    rcases hc : c.contexts with _ | ⟨ctx, rest⟩ <;> simp [push_scope, hc, resState])

theorem gp_pop_scope : GoodPres pop_scope :=
  goodPres_of_chunks (by
    intro c
    rcases hc : c.contexts with _ | ⟨ctx, rest⟩ <;> simp [pop_scope, hc, resState])

theorem gp_push_context (t : ContextType) : GoodPres (push_context t) :=
  goodPres_of_chunks fun _ => rfl

theorem gp_patch_instruction_to (idx t : Nat) : GoodPres (patch_instruction_to idx t) :=
  goodPres_of_chunks (by
    intro c
    rcases hc : c.contexts with _ | ⟨ctx, rest⟩
    · simp [patch_instruction_to, hc, resState]
    · rcases hp : patch_target ((ctx.chunk[idx]?).getD Instruction.Nil) t with _ | i' <;>
        simp [patch_instruction_to, hc, hp, resState])

theorem gp_patch_instruction (idx : Nat) : GoodPres (patch_instruction idx) := by
  intro c hc
  rw [patch_instruction]
  exact gp_patch_instruction_to idx (current_chunk c).length c hc

theorem gp_resolve_local (name : String) : GoodPres (resolve_local name) :=
  goodPres_of_chunks (by
    intro c
    rcases hc : c.contexts with _ | ⟨ctx, rest⟩
    · simp [resolve_local, hc, resState]
    · rcases hr : resolve_local_ctx name ctx with e | r <;>
        simp [resolve_local, hc, hr, resState])

theorem gp_resolve_upvalue (name : String) : GoodPres (resolve_upvalue name) :=
  goodPres_of_chunks (by
    intro c
    rcases hc : c.contexts with _ | ⟨cur, rest⟩
    · simp [resolve_upvalue, hc, resState]
    · rcases hr : resolve_up_chain name rest with e | ⟨r, rest'⟩
      · simp [resolve_upvalue, hc, hr, resState]
      · rcases r with _ | ⟨idx, isl⟩
        · simp [resolve_upvalue, hc, hr, resState]
        · rcases hau : add_upvalue_ctx cur idx isl with ⟨k, cur'⟩
          simp [resolve_upvalue, hc, hr, hau, resState])

theorem gp_declare_variable (idf : String) : GoodPres (declare_variable idf) := by
  intro c hc
  rw [declare_variable]
  split
  · split
    · exact hc
    · exact gp_add_local idf c hc
  · exact hc

theorem gp_define_variable (idf : String) : GoodPres (define_variable idf) := by
  intro c hc
  rw [define_variable]
  split
  · exact gp_mark_local_initialized c hc
  · exact (goodPres_bind (gp_add_constant _) fun _ =>
      goodPres_bind (gp_add_instruction _) fun _ => gp_pureC ()) c hc

theorem gp_compile_nil : GoodPres compile_nil := by
  rw [compile_nil]
  simp only [compM_bind_def, compM_pure_def]
  exact goodPres_bind (gp_add_instruction _) fun _ => gp_pureC ()

theorem gp_compile_boolean (b : Bool) : GoodPres (compile_boolean b) := by
  rcases b <;> rw [compile_boolean] <;> simp only [compM_bind_def, compM_pure_def] <;>
    exact goodPres_bind (gp_add_instruction _) fun _ => gp_pureC ()

theorem gp_compile_number (num : Rat) : GoodPres (compile_number num) := by
  rw [compile_number]
  simp only [compM_bind_def, compM_pure_def]
  exact goodPres_bind (gp_add_constant _) fun _ =>
    goodPres_bind (gp_add_instruction _) fun _ => gp_pureC ()

theorem gp_compile_string (str : String) : GoodPres (compile_string str) := by
  rw [compile_string]
  simp only [compM_bind_def, compM_pure_def]
  exact goodPres_bind (gp_add_constant _) fun _ =>
    goodPres_bind (gp_add_instruction _) fun _ => gp_pureC ()

theorem gp_compile_variable (idf : String) : GoodPres (compile_variable idf) := by
  rw [compile_variable]
  simp only [compM_bind_def, compM_pure_def]
  refine goodPres_bind (gp_resolve_local _) fun r => ?_
  rcases r with _ | slot
  · refine goodPres_bind (gp_resolve_upvalue _) fun r2 => ?_
    rcases r2 with _ | upv
    · exact goodPres_bind (gp_add_constant _) fun _ =>
        goodPres_bind (gp_add_instruction _) fun _ => gp_pureC ()
    · exact goodPres_bind (gp_add_instruction _) fun _ => gp_pureC ()
  · exact goodPres_bind (gp_add_instruction _) fun _ => gp_pureC ()

theorem gp_compile_class (idf : String) (ext : Option String) (stmts : List Stmt) :
    GoodPres (compile_class idf ext stmts) := by
  rw [compile_class]
  simp only [compM_bind_def, compM_pure_def]
  exact goodPres_bind (gp_declare_variable _) fun _ =>
    goodPres_bind (gp_add_constant _) fun _ =>
    goodPres_bind (gp_add_instruction _) fun _ =>
    goodPres_bind (gp_define_variable _) fun _ => gp_pureC ()

theorem gp_declare_and_define_params :
    ∀ args : List Identifier, GoodPres (declare_and_define_params args) := by
  intro args
  induction args with
  | nil =>
    rw [declare_and_define_params]
    simp only [compM_pure_def]
    exact gp_pureC ()
  | cons a rest ih =>
    rw [declare_and_define_params]
    simp only [compM_bind_def]
    exact goodPres_bind (gp_declare_variable _) fun _ =>
      goodPres_bind (gp_define_variable _) fun _ => ih

theorem gp_with_scope {α : Type} {m : CompM α} (hm : GoodPres m) :
    GoodPres (with_scope m) := by
  rw [with_scope]
  simp only [compM_bind_def, compM_pure_def]
  exact goodPres_bind gp_push_scope fun _ =>
    goodPres_bind hm fun a =>
    goodPres_bind gp_pop_scope fun _ => gp_pureC a

/-- `with_context` keeps the chunk invariant when its body (a) keeps it and
(b) leaves, on success, a current chunk ending in the `Nil`, `Return`
epilogue — the chunk that `pop_context` then finishes. -/
theorem goodPres_with_context_of (t : ContextType) (M : CompM Unit)
    (hM : GoodPres M)
    (hEnd : ∀ c a c', M c = .ok a c' →
      ∃ ctx rest, c'.contexts = ctx :: rest ∧
        ∃ pre, ctx.chunk = pre ++ [Instruction.Nil, Instruction.Return]) :
    GoodPres (with_context t M) := by
  rw [with_context]
  simp only [compM_bind_def, compM_pure_def]
  refine goodPres_bind (gp_push_context t) fun _ => ?_
  intro c0 hc0
  rcases hrun : M c0 with ⟨a, q⟩ | ⟨f1, q⟩
  · have hq : GoodNR q := by
      have h := hM c0 hc0
      rw [hrun] at h
      exact h
    obtain ⟨ctxq, restq, hcq, pre, hpre⟩ := hEnd c0 a q hrun
    rw [bindC_apply_ok hrun]
    simp only [pop_context, hcq, resState]
    intro ch hch
    have hch2 : ch ∈ q.chunks ++ [(⟨ctxq.chunk, ctxq.constants⟩ : Chunk)] := hch
    rcases List.mem_append.mp hch2 with h1 | h2
    · exact hq ch h1
    · have he : ch = (⟨ctxq.chunk, ctxq.constants⟩ : Chunk) := by simpa using h2
      rw [he]
      exact ⟨pre, hpre⟩
  · rw [bindC_apply_err hrun]
    have h := hM c0 hc0
    rw [hrun] at h
    exact h

/-- The body that `with_scoped_context` runs for a function ends, on
success, with the freshly emitted `Nil`, `Return` pair at the top of the
current chunk. -/
theorem wsc_body_end (P Q : CompM Unit) :
    ∀ c a c', ((do
      add_local ""
      mark_local_initialized
      push_scope
      (do
        P
        Q
        let _ ← add_instruction Instruction.Nil
        let _ ← add_instruction Instruction.Return
        pure ())) : CompM Unit) c = .ok a c' →
    ∃ ctx rest, c'.contexts = ctx :: rest ∧
      ∃ pre, ctx.chunk = pre ++ [Instruction.Nil, Instruction.Return] := by
  intro c a c' h
  simp only [compM_bind_def, bindC_ok_iff, compM_pure_def, pureC_ok_iff] at h
  obtain ⟨b1, b2, hb1, b3, b4, hb2, b5, b6, hb3, b7, b8, hb4, b9, b10, hb5,
    b11, b12, hb6, b13, b14, hb7, -, rfl⟩ := h
  obtain ⟨ctxN, restN, hcN, -, rfl⟩ := (add_instruction_ok_iff _ _ _ _).mp hb6
  obtain ⟨ctxR, restR, hcR, -, rfl⟩ := (add_instruction_ok_iff _ _ _ _).mp hb7
  have hinj : { ctxN with chunk := ctxN.chunk ++ [Instruction.Nil] } = ctxR ∧
      restN = restR := by
    have h2 : ({ ctxN with chunk := ctxN.chunk ++ [Instruction.Nil] } : Context) :: restN =
        ctxR :: restR := hcR
    exact ⟨(List.cons.injEq _ _ _ _ ▸ h2).1, (List.cons.injEq _ _ _ _ ▸ h2).2⟩
  refine ⟨_, restR, rfl, ctxN.chunk, ?_⟩
  rw [← hinj.1]
  simp

/-- `with_scoped_context` around a parameter-then-body run followed by the
`Nil`, `Return` epilogue keeps the chunk invariant. -/
theorem gp_with_scoped_context (t : ContextType) (P Q : CompM Unit)
    (hP : GoodPres P) (hQ : GoodPres Q) :
    GoodPres (with_scoped_context t (do
      P
      Q
      let _ ← add_instruction Instruction.Nil
      let _ ← add_instruction Instruction.Return
      pure ())) := by
  rw [with_scoped_context]
  refine goodPres_with_context_of t _ ?_ ?_
  · simp only [compM_bind_def, compM_pure_def]
    exact goodPres_bind (gp_add_local _) fun _ =>
      goodPres_bind gp_mark_local_initialized fun _ =>
      goodPres_bind gp_push_scope fun _ =>
      goodPres_bind hP fun _ =>
      goodPres_bind hQ fun _ =>
      goodPres_bind (gp_add_instruction _) fun _ =>
      goodPres_bind (gp_add_instruction _) fun _ => gp_pureC ()
  · exact wsc_body_end P Q

/-- `GoodNR` preservation for every compile function, at every fuel, on
every outcome: by induction on the fuel. -/
theorem goodStep_all : ∀ fuel, GoodStep fuel := by
  intro fuel
  induction fuel with
  | zero =>
    exact ⟨fun s => gp_outOfFuelC, fun ss => gp_outOfFuelC, fun ss acc => gp_outOfFuelC,
      fun e => gp_outOfFuelC, fun e => gp_outOfFuelC, fun e => gp_outOfFuelC,
      fun ss => gp_outOfFuelC, fun idf e => gp_outOfFuelC, fun cnd t e => gp_outOfFuelC,
      fun cnd b => gp_outOfFuelC, fun idf args blk => gp_outOfFuelC, fun e => gp_outOfFuelC,
      fun e idf => gp_outOfFuelC, fun e idf v => gp_outOfFuelC, fun op e => gp_outOfFuelC,
      fun f args => gp_outOfFuelC, fun args => gp_outOfFuelC, fun op l r => gp_outOfFuelC,
      fun l r => gp_outOfFuelC, fun l r => gp_outOfFuelC, fun idf e => gp_outOfFuelC,
      fun op l r => gp_outOfFuelC⟩
  | succ fuel ih =>
    obtain ⟨ihS, ihA, ihG, ihE, ihP, ihES, ihB, ihV, ihIf, ihW, ihF, ihR, ihGt, ihSt,
      ihU, ihC, ihAr, ihL, ihLo, ihLa, ihAs, ihBin⟩ := ih
    refine ⟨?_, ?_, ?_, ?_, ?_, ?_, ?_, ?_, ?_, ?_, ?_, ?_, ?_, ?_, ?_, ?_, ?_, ?_,
      ?_, ?_, ?_, ?_⟩
    -- compile_stmt
    · intro s
      rcases s with e | e | ⟨idf, e⟩ | ss | ⟨cnd, th, el⟩ | ⟨cnd2, b⟩ | ⟨idf2, args, blk⟩ |
        e | ⟨idf3, ext, ms⟩ <;> rw [compile_stmt]
      · exact ihES e
      · exact ihP e
      · exact ihV idf e
      · exact ihB ss
      · exact ihIf cnd th el
      · exact ihW cnd2 b
      · exact ihF idf2 args blk
      · exact ihR e
      · exact gp_compile_class idf3 ext ms
    -- compile_ast
    · intro ss
      rw [compile_ast]
      exact ihG ss []
    -- compile_ast_go
    · intro ss acc
      rcases ss with _ | ⟨st, rest⟩ <;> rw [compile_ast_go]
      · simp only [compM_pure_def]
        split
        · exact gp_pureC ()
        · exact gp_throwErr _
      · intro c hc
        rcases h : compile_stmt fuel st c with ⟨a1, c1⟩ | ⟨f1, c1⟩
        · have h1 := ihS st c hc
          rw [h] at h1
          show GoodNR (resState (match compile_stmt fuel st c with
            | .ok _ c' => compile_ast_go fuel rest acc c'
            | .err (.err e) c' => compile_ast_go fuel rest (e :: acc) c'
            | .err (.panicked m) c' => .err (.panicked m) c'))
          rw [h]
          exact ihG rest acc c1 h1
        · have h1 := ihS st c hc
          rw [h] at h1
          show GoodNR (resState (match compile_stmt fuel st c with
            | .ok _ c' => compile_ast_go fuel rest acc c'
            | .err (.err e) c' => compile_ast_go fuel rest (e :: acc) c'
            | .err (.panicked m) c' => .err (.panicked m) c'))
          rw [h]
          rcases f1 with e1 | m1
          · exact ihG rest (e1 :: acc) c1 h1
          · exact h1
    -- compile_expr
    · intro e
      rcases e with num | str | b | _ | idf | ⟨idf2, e2⟩ | ⟨op, e3⟩ | ⟨l, op2, r⟩ |
        ⟨l2, op3, r2⟩ | g | ⟨cal, args⟩ | ⟨obj, idf4⟩ | ⟨obj2, idf5, v⟩ | _ | sm <;>
        rw [compile_expr]
      · exact gp_compile_number num
      · exact gp_compile_string str
      · exact gp_compile_boolean b
      · exact gp_compile_nil
      · exact gp_compile_variable idf
      · exact ihAs idf2 e2
      · exact ihU op e3
      · exact ihBin op2 l r
      · exact ihL op3 l2 r2
      · exact ihE g
      · exact ihC cal args
      · exact ihGt obj idf4
      · exact ihSt obj2 idf5 v
      · exact gp_compilePanic _
      · exact gp_compilePanic _
    -- compile_print
    · intro e
      rw [compile_print]
      simp only [compM_bind_def, compM_pure_def]
      exact goodPres_bind (ihE e) fun _ =>
        goodPres_bind (gp_add_instruction _) fun _ => gp_pureC ()
    -- compile_expression_statement
    · intro e
      rw [compile_expression_statement]
      simp only [compM_bind_def, compM_pure_def]
      exact goodPres_bind (ihE e) fun _ =>
        goodPres_bind (gp_add_instruction _) fun _ => gp_pureC ()
    -- compile_block
    · intro ss
      rw [compile_block]
      exact gp_with_scope (ihA ss)
    -- compile_var_declaration
    · intro idf e
      rcases e with _ | e <;> rw [compile_var_declaration] <;>
        simp only [compM_bind_def, compM_pure_def]
      · exact goodPres_bind (gp_declare_variable _) fun _ =>
          goodPres_bind gp_compile_nil fun _ =>
          goodPres_bind (gp_define_variable _) fun _ => gp_pureC ()
      · exact goodPres_bind (gp_declare_variable _) fun _ =>
          goodPres_bind (ihE e) fun _ =>
          goodPres_bind (gp_define_variable _) fun _ => gp_pureC ()
    -- compile_if
    · intro cnd t el
      rcases el with _ | els <;> rw [compile_if] <;>
        simp only [compM_bind_def, compM_pure_def]
      · exact goodPres_bind (ihE cnd) fun _ =>
          goodPres_bind (gp_add_instruction _) fun ti =>
          goodPres_bind (gp_add_instruction _) fun _ =>
          goodPres_bind (ihS t) fun _ => gp_patch_instruction ti
      · exact goodPres_bind (ihE cnd) fun _ =>
          goodPres_bind (gp_add_instruction _) fun ti =>
          goodPres_bind (gp_add_instruction _) fun _ =>
          goodPres_bind (ihS t) fun _ =>
          goodPres_bind (gp_add_instruction _) fun ei =>
          goodPres_bind (gp_patch_instruction ti) fun _ =>
          goodPres_bind (gp_add_instruction _) fun _ =>
          goodPres_bind (ihS els) fun _ => gp_patch_instruction ei
    -- compile_while
    · intro cnd b
      rw [compile_while]
      simp only [compM_bind_def, compM_pure_def]
      exact goodPres_bind gp_instruction_index fun ls =>
        goodPres_bind (ihE cnd) fun _ =>
        goodPres_bind (gp_add_instruction _) fun ej =>
        goodPres_bind (gp_add_instruction _) fun _ =>
        goodPres_bind (ihS b) fun _ =>
        goodPres_bind (gp_add_instruction _) fun lj =>
        goodPres_bind (gp_patch_instruction_to lj ls) fun _ =>
        goodPres_bind (gp_patch_instruction ej) fun _ =>
        goodPres_bind (gp_add_instruction _) fun _ => gp_pureC ()
    -- compile_function
    · intro idf args blk
      rw [compile_function]
      simp only [compM_bind_def, compM_pure_def]
      refine goodPres_bind (gp_declare_variable _) fun _ => ?_
      refine goodPres_bind gp_getCompiler fun g => ?_
      split
      · exact goodPres_bind gp_mark_local_initialized fun _ =>
          goodPres_bind (gp_with_scoped_context ContextType.Function
            (declare_and_define_params args) (compile_block fuel blk)
            (gp_declare_and_define_params args) (ihB blk)) fun p =>
          goodPres_bind (gp_add_constant _) fun k =>
          goodPres_bind (gp_add_instruction _) fun _ =>
          goodPres_bind (gp_define_variable _) fun _ => gp_pureC ()
      · exact goodPres_bind (gp_pureC ()) fun _ =>
          goodPres_bind (gp_with_scoped_context ContextType.Function
            (declare_and_define_params args) (compile_block fuel blk)
            (gp_declare_and_define_params args) (ihB blk)) fun p =>
          goodPres_bind (gp_add_constant _) fun k =>
          goodPres_bind (gp_add_instruction _) fun _ =>
          goodPres_bind (gp_define_variable _) fun _ => gp_pureC ()
    -- compile_return
    · intro e
      rcases e with _ | e <;> rw [compile_return] <;>
        simp only [compM_bind_def, compM_pure_def]
      · exact goodPres_bind gp_compile_nil fun _ =>
          goodPres_bind (gp_add_instruction _) fun _ => gp_pureC ()
      · exact goodPres_bind (ihE e) fun _ =>
          goodPres_bind (gp_add_instruction _) fun _ => gp_pureC ()
    -- compiler_get
    · intro e idf
      rw [compiler_get]
      simp only [compM_bind_def, compM_pure_def]
      exact goodPres_bind (ihE e) fun _ =>
        goodPres_bind (gp_add_constant _) fun k =>
        goodPres_bind (gp_add_instruction _) fun _ => gp_pureC ()
    -- compiler_set
    · intro e idf v
      rw [compiler_set]
      simp only [compM_bind_def, compM_pure_def]
      exact goodPres_bind (ihE e) fun _ =>
        goodPres_bind (ihE v) fun _ =>
        goodPres_bind (gp_add_constant _) fun k =>
        goodPres_bind (gp_add_instruction _) fun _ => gp_pureC ()
    -- compile_unary
    · intro op e
      rcases op with _ | _ <;> rw [compile_unary] <;>
        simp only [compM_bind_def, compM_pure_def] <;>
        exact goodPres_bind (ihE e) fun _ =>
          goodPres_bind (gp_add_instruction _) fun _ => gp_pureC ()
    -- compile_call
    · intro f args
      rw [compile_call]
      simp only [compM_bind_def, compM_pure_def]
      exact goodPres_bind (ihE f) fun _ =>
        goodPres_bind (ihAr args) fun _ =>
        goodPres_bind (gp_add_instruction _) fun _ => gp_pureC ()
    -- compile_args_list
    · intro args
      rcases args with _ | ⟨a, rest⟩ <;> rw [compile_args_list] <;>
        simp only [compM_bind_def, compM_pure_def]
      · exact gp_pureC ()
      · exact goodPres_bind (ihE a) fun _ => ihAr rest
    -- compile_logical
    · intro op l r
      rcases op with _ | _ <;> rw [compile_logical]
      · exact ihLa l r
      · exact ihLo l r
    -- compile_logical_or
    · intro l r
      rw [compile_logical_or]
      simp only [compM_bind_def, compM_pure_def]
      exact goodPres_bind (ihE l) fun _ =>
        goodPres_bind (gp_add_instruction _) fun ej =>
        goodPres_bind (gp_add_instruction _) fun nj =>
        goodPres_bind (gp_patch_instruction ej) fun _ =>
        goodPres_bind (gp_add_instruction _) fun _ =>
        goodPres_bind (ihE r) fun _ => gp_patch_instruction nj
    -- compile_logical_and
    · intro l r
      rw [compile_logical_and]
      simp only [compM_bind_def, compM_pure_def]
      exact goodPres_bind (ihE l) fun _ =>
        goodPres_bind (gp_add_instruction _) fun ej =>
        goodPres_bind (gp_add_instruction _) fun _ =>
        goodPres_bind (ihE r) fun _ => gp_patch_instruction ej
    -- compile_assign
    · intro idf e
      rw [compile_assign]
      simp only [compM_bind_def, compM_pure_def]
      refine goodPres_bind (ihE e) fun _ => ?_
      refine goodPres_bind (gp_resolve_local _) fun r => ?_
      rcases r with _ | slot
      · refine goodPres_bind (gp_resolve_upvalue _) fun r2 => ?_
        rcases r2 with _ | upv
        · exact goodPres_bind (gp_add_constant _) fun k =>
            goodPres_bind (gp_add_instruction _) fun _ => gp_pureC ()
        · exact goodPres_bind (gp_add_instruction _) fun _ => gp_pureC ()
      · exact goodPres_bind (gp_add_instruction _) fun _ => gp_pureC ()
    -- compile_binary
    · intro op l r
      rcases op with _ | _ | _ | _ | _ | _ | _ | _ | _ | _ <;> rw [compile_binary] <;>
        simp only [compM_bind_def, compM_pure_def] <;>
        first
        | exact goodPres_bind (ihE l) fun _ =>
            goodPres_bind (ihE r) fun _ =>
            goodPres_bind (gp_add_instruction _) fun _ =>
            goodPres_bind (gp_add_instruction _) fun _ => gp_pureC ()
        | exact goodPres_bind (ihE l) fun _ =>
            goodPres_bind (ihE r) fun _ =>
            goodPres_bind (gp_add_instruction _) fun _ => gp_pureC ()

/-- The top-level body of `compile` ends, on success, with the implicit
`Nil`, `Return` epilogue at the top of the current chunk. -/
theorem top_body_end (F : Nat) (ast : Ast) :
    ∀ c a c', ((do
      add_local ""
      compile_ast F ast
      let _ ← add_instruction Instruction.Nil
      let _ ← add_instruction Instruction.Return
      pure ()) : CompM Unit) c = .ok a c' →
    ∃ ctx rest, c'.contexts = ctx :: rest ∧
      ∃ pre, ctx.chunk = pre ++ [Instruction.Nil, Instruction.Return] := by
  intro c a c' h
  simp only [compM_bind_def, bindC_ok_iff, compM_pure_def, pureC_ok_iff] at h
  obtain ⟨b1, b2, hb1, b3, b4, hb2, b5, b6, hb3, b7, b8, hb4, -, rfl⟩ := h
  obtain ⟨ctxN, restN, hcN, -, rfl⟩ := (add_instruction_ok_iff _ _ _ _).mp hb3
  obtain ⟨ctxR, restR, hcR, -, rfl⟩ := (add_instruction_ok_iff _ _ _ _).mp hb4
  have hinj : { ctxN with chunk := ctxN.chunk ++ [Instruction.Nil] } = ctxR ∧
      restN = restR := by
    have h2 : ({ ctxN with chunk := ctxN.chunk ++ [Instruction.Nil] } : Context) :: restN =
        ctxR :: restR := hcR
    exact ⟨(List.cons.injEq _ _ _ _ ▸ h2).1, (List.cons.injEq _ _ _ _ ▸ h2).2⟩
  refine ⟨_, restR, rfl, ctxN.chunk, ?_⟩
  rw [← hinj.1]
  simp

/-- C7: whenever `compile` succeeds, every chunk of the returned module ends
with the implicit `Nil` then `Return` appended after its compiled contents —
the top level by `compile` itself, each function chunk by the epilogue of
`compile_function`'s context — so every chunk's last instruction is
`Return`. -/
theorem claim7_chunks_end_with_return :
    ∀ (ast : Ast) (m : Module), compile ast = .ok m →
      ∀ ch ∈ m.chunks,
        (∃ pre, ch.instructions = pre ++ [Instruction.Nil, Instruction.Return]) ∧
        ch.instructions.getLast? = some Instruction.Return := by
  intro ast m hm ch hch
  rw [compile, compile_with_fuel] at hm
  have hgood : GoodNR (resState ((with_context ContextType.TopLevel (do
      add_local ""
      compile_ast (16 * stmt_list_size ast + 16) ast
      let _ ← add_instruction Instruction.Nil
      let _ ← add_instruction Instruction.Return
      pure ())) newCompiler)) :=
    goodPres_with_context_of _ _
      (by
        simp only [compM_bind_def, compM_pure_def]
        exact goodPres_bind (gp_add_local _) fun _ =>
          goodPres_bind ((goodStep_all _).2.1 ast) fun _ =>
          goodPres_bind (gp_add_instruction _) fun _ =>
          goodPres_bind (gp_add_instruction _) fun _ => gp_pureC ())
      (top_body_end _ ast) newCompiler
      (by intro c hc; exact absurd hc (by simp [newCompiler]))
  rcases hrun : (with_context ContextType.TopLevel (do
      add_local ""
      compile_ast (16 * stmt_list_size ast + 16) ast
      let _ ← add_instruction Instruction.Nil
      let _ ← add_instruction Instruction.Return
      pure ())) newCompiler with ⟨a, cfin⟩ | ⟨f, cfin⟩
  · rw [hrun] at hm hgood
    have hm2 : Except.ok (ε := Failure) (into_module cfin) = Except.ok m := hm
    injection hm2 with hme
    have hgood2 : GoodNR cfin := hgood
    have hch2 : ch ∈ cfin.chunks := by
      rw [← hme] at hch
      exact hch
    obtain ⟨pre, hpre⟩ := hgood2 ch hch2
    refine ⟨⟨pre, hpre⟩, ?_⟩
    rw [hpre, show pre ++ [Instruction.Nil, Instruction.Return] =
      (pre ++ [Instruction.Nil]) ++ [Instruction.Return] by simp]
    simp
  · rw [hrun] at hm
    have hm2 : (Except.error f : Except Failure Module) = Except.ok m := hm
    exact absurd hm2 (by simp)

theorem claim7_chunks_end_with_return_witness :
    compile [] = .ok (⟨[⟨[.Nil, .Return], []⟩]⟩ : Module) ∧
    ((⟨[.Nil, .Return], []⟩ : Chunk).instructions = [] ++ [Instruction.Nil, Instruction.Return]) ∧
    ((⟨[.Nil, .Return], []⟩ : Chunk).instructions.getLast? = some Instruction.Return) := by
  have hc : compile ([] : Ast) = compile_with_fuel 32 [] := by
    rw [compile]
    norm_num [stmt_list_size]
  have hrun : compile ([] : Ast) = .ok (⟨[⟨[.Nil, .Return], []⟩]⟩ : Module) := by
    rw [hc]
    rfl
  have h := claim7_chunks_end_with_return [] ⟨[⟨[.Nil, .Return], []⟩]⟩ hrun
    ⟨[.Nil, .Return], []⟩ (by simp)
  exact ⟨hrun, by simp, h.2⟩

end Lox
